import Mathlib

/-!
Verification of the notetype schema-change module
(`rslib/src/notetype/mod.rs`).

The Rust source is shallowly embedded below.  Machine integers (`u16`,
`u32`, `usize`) are modelled as `Nat`, `i64`/`i32` as `Int`; none of the
verified operations can overflow them on realistic collections and no
claim concerns wrap-around.  `&mut self` methods returning `Result<()>`
are modelled as functions returning the mutated value paired with
`Option AnkiError` (the error, when one occurred).  The template
micro-language, the name sanitizer, Unicode NFC normalization, and the
note/card updaters live outside this module; they are kept abstract as a
`Collab` record of collaborator operations (their contracts are given in
the spec's §6), so every theorem holds for any implementation of them.
-/

/-- The character `"` (stripped from notetype names). -/
def quoteChar : Char := Char.ofNat 34

/-- The marker character `+` appended to resolve name collisions. -/
def plusChar : Char := Char.ofNat 43

/-- A string of `k` marker characters. -/
def pluses (k : Nat) : String := ⟨List.replicate k plusChar⟩

/-- Case-insensitive comparison key.  Embeds the `UniCase` wrapper used by
`ensure_names_unique` and `get_field_ord`: two names collide iff their
case-folded forms are equal. -/
def caseFold (s : String) : String := ⟨s.data.map Char.toLower⟩

/-- `self.name.replace('"', "")` guarded by the `contains` test in
`prepare_for_update`. -/
def stripQuotes (s : String) : String :=
  if s.data.any (fun ch => ch = quoteChar) then
    ⟨s.data.filter (fun ch => ¬ ch = quoteChar)⟩
  else s

/-- Field requirement classification returned by the template
collaborator (`FieldRequirements` in `template.rs`, a closed enum over
`HashSet<u16>`; sets of ordinals are modelled as `Finset Nat`). -/
inductive FieldRequirements where
  | any (ords : Finset Nat)
  | all (ords : Finset Nat)
  | none
deriving DecidableEq

/-- `CardRequirementKind` from the proto definitions. -/
inductive CardRequirementKind where
  | any
  | all
  | none
deriving DecidableEq, Repr

/-- `CardRequirement` from the proto definitions. -/
structure CardRequirement where
  card_ord : Nat
  kind : CardRequirementKind
  field_ords : List Nat
deriving DecidableEq, Repr

/-- `NotetypeKind` (`Config::Kind`): standard or cloze. -/
inductive NotetypeKind where
  | standard
  | cloze
deriving DecidableEq, Repr

/-- `NoteField`: `ord` is the position in the previously persisted
schema (`None` for newly added fields).  The `config` payload is not
consulted by any verified operation and is omitted. -/
structure NoteField where
  ord : Option Nat
  name : String
deriving DecidableEq, Repr

/-- `CardTemplate` with its `config.q_format` / `config.a_format`
flattened in; the remaining config payload is not consulted by any
verified operation and is omitted. -/
structure CardTemplate where
  name : String
  q_format : String
  a_format : String
deriving DecidableEq, Repr

/-- `NotetypeConfig`, restricted to the members the verified operations
read or write (`kind`, `sort_field_idx`, `reqs`, `target_deck_id`). -/
structure NotetypeConfig where
  kind : NotetypeKind
  sort_field_idx : Nat
  reqs : List CardRequirement
  target_deck_id : Int
deriving DecidableEq, Repr

/-- The `Notetype` struct. -/
structure Notetype where
  id : Int
  name : String
  mtime_secs : Int
  usn : Int
  fields : List NoteField
  templates : List CardTemplate
  config : NotetypeConfig
deriving DecidableEq, Repr

/-- The error variants this module produces (`AnkiError`). -/
inductive AnkiError where
  | invalidInput (msg : String)
  | templateSaveError (notetype : String) (ordinal : Nat)
  | notFound
deriving DecidableEq, Repr

/-- Modelled from the spec: the external collaborators of the module
(spec §6).  `PT` is the opaque `ParsedTemplate` type of the template
micro-language (`template.rs`, not part of this module); `parse`,
`requirements`, `renameAndRemoveFields` and `templateToString` are its
four operations.  `fixFieldName` / `fixTemplateName` embed
`NoteField::fix_name` / `CardTemplate::fix_name` (the collaborator
sanitizers from `fields.rs` / `templates.rs`, returning `none` when the
name is unsanitizable, which the source surfaces as `InvalidInput`).
`nfc` embeds `ensure_string_in_nfc` from `text.rs` (Unicode canonical
composition). -/
structure Collab (PT : Type) where
  parse : String → Option PT
  requirements : PT → List (String × Nat) → FieldRequirements
  renameAndRemoveFields : PT → List (String × Option String) → PT
  templateToString : PT → String
  fixFieldName : String → Option String
  fixTemplateName : String → Option String
  nfc : String → String

/-! ### Name uniquification (`ensure_names_unique`)

The source's inner `loop` appends `+` while the case-folded name is
already in the seen set.  Each iteration matches a distinct element of
the seen set (folded names strictly grow in length), so
`taken.length + 1` rounds always suffice; the recursion is therefore
run on that explicit structural bound, and `uniquifyNameGo_spec` below
shows the bound is never exhausted. -/

def uniquifyNameGo : Nat → List String → String → String
  | 0, _, name => name
  | Nat.succ fuel, taken, name =>
    if caseFold name ∈ taken then uniquifyNameGo fuel taken (name ++ ⟨[plusChar]⟩)
    else name

/-- One `loop` iteration group from `ensure_names_unique`: append `+`
until the case-folded name no longer collides with `taken`. -/
def uniquifyName (taken : List String) (name : String) : String :=
  uniquifyNameGo (taken.length + 1) taken name

/-- The per-collection pass of `ensure_names_unique`, generic over the
record type (`CardTemplate` or `NoteField`): walk the items in order,
de-collide each name against the accumulated seen set, insert the final
folded name into the set. -/
def uniquified {α : Type} (getName : α → String) (withName : α → String → α)
    (taken : List String) : List α → List α
  | [] => []
  | x :: xs =>
    let n := uniquifyName taken (getName x)
    withName x n :: uniquified getName withName (caseFold n :: taken) xs

/-- `uniquified` restricted to the name sequence itself. -/
def uniquifyNames (taken : List String) : List String → List String
  | [] => []
  | n :: ns =>
    let n2 := uniquifyName taken n
    n2 :: uniquifyNames (caseFold n2 :: taken) ns

/-- `Notetype::ensure_names_unique`: de-collide template names against an
empty seen set, then (after clearing the set) field names. -/
def Notetype.ensure_names_unique (nt : Notetype) : Notetype :=
  { nt with
    templates :=
      uniquified (fun t => t.name) (fun t n => { t with name := n }) [] nt.templates
    fields :=
      uniquified (fun f => f.name) (fun f n => { f with name := n }) [] nt.fields }

/-! ### `get_template`, `normalize_names`, sort index repositioning -/

/-- `Notetype::get_template`: cloze notetypes always use the first
template; standard notetypes index by card ordinal. -/
def Notetype.get_template (nt : Notetype) (card_ord : Nat) : Except AnkiError CardTemplate :=
  let template :=
    if nt.config.kind = NotetypeKind.cloze then nt.templates.get? 0
    else nt.templates.get? card_ord
  match template with
  | some t => Except.ok t
  | none => Except.error AnkiError.notFound

/-- `Notetype::set_modified`; `TimestampSecs::now()` is passed in as
`now`. -/
def Notetype.set_modified (nt : Notetype) (usn now : Int) : Notetype :=
  { nt with mtime_secs := now, usn := usn }

/-- `Notetype::normalize_names`: NFC-normalize the notetype name and
every field and template name. -/
def Notetype.normalize_names {PT : Type} (c : Collab PT) (nt : Notetype) : Notetype :=
  { nt with
    name := c.nfc nt.name
    fields := nt.fields.map (fun f => { f with name := c.nfc f.name })
    templates := nt.templates.map (fun t => { t with name := c.nfc t.name }) }

/-- The `find_map` in `reposition_sort_idx`: index of the first field
whose stored prior ordinal equals `target`, counting from `idx`. -/
def findMatchingOrd (target : Nat) : Nat → List NoteField → Option Nat
  | _, [] => none
  | idx, f :: fs =>
    if f.ord = some target then some idx else findMatchingOrd target (idx + 1) fs

/-- `Notetype::reposition_sort_idx`: move the sort index to the new
position of the field whose prior ordinal equals it, else clamp with
`.max(0).min(fields.len() - 1)` (`Nat` subtraction truncates where the
Rust `usize` subtraction would panic; see `reposition_sort_idx_checked`). -/
def Notetype.reposition_sort_idx (nt : Notetype) : Notetype :=
  { nt with
    config :=
      { nt.config with
        sort_field_idx :=
          match findMatchingOrd nt.config.sort_field_idx 0 nt.fields with
          | some idx => idx
          | none =>
            Nat.min (Nat.max nt.config.sort_field_idx 0) (nt.fields.length - 1) } }

/-- `reposition_sort_idx` with the panic made explicit: in the clamping
branch the source evaluates `self.fields.len() - 1` on a `usize`, which
underflows (panics) when the field list is empty; that case is `none`
here. -/
def reposition_sort_idx_checked (nt : Notetype) : Option Notetype :=
  match findMatchingOrd nt.config.sort_field_idx 0 nt.fields with
  | some idx =>
    some { nt with config := { nt.config with sort_field_idx := idx } }
  | none =>
    if nt.fields.length = 0 then none
    else
      some { nt with
        config :=
          { nt.config with
            sort_field_idx :=
              Nat.min (Nat.max nt.config.sort_field_idx 0) (nt.fields.length - 1) } }

/-! ### Requirement derivation (`updated_requirements`) -/

/-- The `field_map` of `updated_requirements`: `HashMap<&str, u16>` from
field name to index, built by enumeration (association-list model; the
collaborator receives it opaquely). -/
def fieldMapGo : Nat → List NoteField → List (String × Nat)
  | _, [] => []
  | idx, f :: fs => (f.name, idx) :: fieldMapGo (idx + 1) fs

def fieldMap (fields : List NoteField) : List (String × Nat) :=
  fieldMapGo 0 fields

/-- The body of `updated_requirements`: `.iter().enumerate().map(..)`
over the parsed question/answer pairs, carrying the card ordinal.  A
missing question parse yields an unsatisfiable (`none`) requirement; a
present one is classified by the collaborator and its ordinal set is
collected and sorted (`sort_unstable` on a vector collected from a
`HashSet`, i.e. the sorted duplicate-free enumeration of the set). -/
def updatedRequirementsGo {PT : Type} (c : Collab PT) (fm : List (String × Nat)) :
    Nat → List (Option PT × Option PT) → List CardRequirement
  | _, [] => []
  | ord, (qtmpl, _atmpl) :: rest =>
    (match qtmpl with
     | some tmpl =>
       match c.requirements tmpl fm with
       | FieldRequirements.any ords =>
         { card_ord := ord, kind := CardRequirementKind.any
           field_ords := ords.sort (· ≤ ·) }
       | FieldRequirements.all ords =>
         { card_ord := ord, kind := CardRequirementKind.all
           field_ords := ords.sort (· ≤ ·) }
       | FieldRequirements.none =>
         { card_ord := ord, kind := CardRequirementKind.none, field_ords := [] }
     | none =>
       -- template parsing failures make card unsatisfiable
       { card_ord := ord, kind := CardRequirementKind.none, field_ords := [] })
      :: updatedRequirementsGo c fm (ord + 1) rest

/-- `Notetype::updated_requirements`. -/
def Notetype.updated_requirements {PT : Type} (c : Collab PT) (nt : Notetype)
    (parsed : List (Option PT × Option PT)) : List CardRequirement :=
  updatedRequirementsGo c (fieldMap nt.fields) 0 parsed

/-- `Notetype::parsed_templates`: parse every template's question and
answer format. -/
def Notetype.parsed_templates {PT : Type} (c : Collab PT) (nt : Notetype) :
    List (Option PT × Option PT) :=
  nt.templates.map (fun t => (c.parse t.q_format, c.parse t.a_format))

/-- The `find_map` in `prepare_for_update` locating the first template
ordinal whose question or answer failed to parse. -/
def invalidCardIdxGo {PT : Type} : Nat → List (Option PT × Option PT) → Option Nat
  | _, [] => none
  | idx, (q, a) :: rest =>
    if q.isNone || a.isNone then some idx else invalidCardIdxGo (idx + 1) rest

def invalidCardIdx {PT : Type} (parsed : List (Option PT × Option PT)) : Option Nat :=
  invalidCardIdxGo 0 parsed

/-! ### Rename / removal propagation -/

/-- The second pass of `renamed_and_removed_fields`: enumerate the old
fields and record `old name → None` for every index not retained as a
prior ordinal by any current field. -/
def removedEntries (remaining : List Nat) : Nat → List NoteField → List (String × Option String)
  | _, [] => []
  | idx, f :: fs =>
    if idx ∈ remaining then removedEntries remaining (idx + 1) fs
    else (f.name, none) :: removedEntries remaining (idx + 1) fs

/-- The per-field body of the first (`filter_map`) pass of
`renamed_and_removed_fields`: a rename entry when this field's prior
ordinal indexes an old field with a different name. -/
def renameEntry (current : Notetype) (field : NoteField) :
    Option (String × Option String) :=
  match field.ord with
  | some existing_ord =>
    match current.fields.get? existing_ord with
    | some existing_field =>
      if existing_field.name ≠ field.name then
        some (existing_field.name, some field.name)
      else none
    | none => none
  | none => none

/-- `Notetype::renamed_and_removed_fields`.  The result models the
`HashMap<String, Option<String>>`: an entry list whose lookup takes the
last binding of a key, mirroring `collect`-then-`insert` semantics
(`mapLookup` below). -/
def Notetype.renamed_and_removed_fields (self current : Notetype) :
    List (String × Option String) :=
  let renames := self.fields.filterMap (renameEntry current)
  let remaining_ords := self.fields.filterMap (fun field => field.ord)
  renames ++ removedEntries remaining_ords 0 current.fields

/-- Lookup in the entry-list model of a `HashMap` built by successive
insertion: the last binding of a key wins. -/
def mapLookup (entries : List (String × Option String)) (k : String) :
    Option (Option String) :=
  entries.reverse.lookup k

/-- The rewrite loop of
`update_templates_for_renamed_and_removed_fields`, zipping the template
list with the parse results (the source indexes `self.templates[idx]`
over `parsed`'s enumeration; the two have equal length at the call
site).  Only a present parse has its side re-serialized. -/
def updateTemplatesGo {PT : Type} (c : Collab PT) (fields : List (String × Option String)) :
    List CardTemplate → List (Option PT × Option PT) → List CardTemplate
  | ts, [] => ts
  | [], _ :: _ => []
  | t :: ts, (q, a) :: ps =>
    let t1 :=
      match q with
      | some q =>
        { t with q_format := c.templateToString (c.renameAndRemoveFields q fields) }
      | none => t
    let t2 :=
      match a with
      | some a =>
        { t1 with a_format := c.templateToString (c.renameAndRemoveFields a fields) }
      | none => t1
    t2 :: updateTemplatesGo c fields ts ps

/-- `Notetype::update_templates_for_renamed_and_removed_fields`. -/
def Notetype.update_templates_for_renamed_and_removed_fields {PT : Type}
    (c : Collab PT) (nt : Notetype) (fields : List (String × Option String))
    (parsed : List (Option PT × Option PT)) : Notetype :=
  { nt with templates := updateTemplatesGo c fields nt.templates parsed }

/-! ### The validation pipeline (`prepare_for_update`) -/

/-- `Notetype::fix_field_names` (`try_for_each(NoteField::fix_name)`),
with the collaborator sanitizer. -/
def fixFieldNamesM {PT : Type} (c : Collab PT) :
    List NoteField → Except AnkiError (List NoteField)
  | [] => Except.ok []
  | f :: fs =>
    match c.fixFieldName f.name with
    | none => Except.error (AnkiError.invalidInput "empty name")
    | some n =>
      match fixFieldNamesM c fs with
      | Except.error e => Except.error e
      | Except.ok rest => Except.ok ({ f with name := n } :: rest)

/-- `Notetype::fix_template_names`. -/
def fixTemplateNamesM {PT : Type} (c : Collab PT) :
    List CardTemplate → Except AnkiError (List CardTemplate)
  | [] => Except.ok []
  | t :: ts =>
    match c.fixTemplateName t.name with
    | none => Except.error (AnkiError.invalidInput "empty name")
    | some n =>
      match fixTemplateNamesM c ts with
      | Except.error e => Except.error e
      | Except.ok rest => Except.ok ({ t with name := n } :: rest)

/-- Steps 1-3 of `prepare_for_update` up to (but excluding)
`reposition_sort_idx`: the emptiness guards, the notetype-name strip and
emptiness check, `normalize_names`, the two `fix_*_names` passes and
`ensure_names_unique`.  Returns the notetype state at that point paired
with the error, if any step failed. -/
def Notetype.preReposition {PT : Type} (c : Collab PT) (nt : Notetype) :
    Notetype × Option AnkiError :=
  if nt.fields.isEmpty then
    (nt, some (AnkiError.invalidInput "1 field required"))
  else if nt.templates.isEmpty then
    (nt, some (AnkiError.invalidInput "1 template required"))
  else
    let nt1 := { nt with name := stripQuotes nt.name }
    if nt1.name = "" then
      (nt1, some (AnkiError.invalidInput "Empty note type name"))
    else
      let nt2 := nt1.normalize_names c
      match fixFieldNamesM c nt2.fields with
      | Except.error e => (nt2, some e)
      | Except.ok fs =>
        let nt3 := { nt2 with fields := fs }
        match fixTemplateNamesM c nt3.templates with
        | Except.error e => (nt3, some e)
        | Except.ok ts =>
          let nt4 := { nt3 with templates := ts }
          (nt4.ensure_names_unique, none)

/-- The name-fixing stage of `prepare_for_update`
(`preReposition` followed by `reposition_sort_idx`). -/
def Notetype.fixNamesStage {PT : Type} (c : Collab PT) (nt : Notetype) :
    Notetype × Option AnkiError :=
  match nt.preReposition c with
  | (m, some e) => (m, some e)
  | (m, none) => (m.reposition_sort_idx, none)

/-- `Notetype::prepare_for_update`.  The returned notetype is `self`'s
final state; `Option AnkiError` is the `Result<()>`. -/
def Notetype.prepare_for_update {PT : Type} (c : Collab PT) (nt : Notetype)
    (existing : Option Notetype) : Notetype × Option AnkiError :=
  match nt.fixNamesStage c with
  | (m, some e) => (m, some e)
  | (m, none) =>
    let parsed := m.parsed_templates c
    match invalidCardIdx parsed with
    | some idx => (m, some (AnkiError.templateSaveError m.name idx))
    | none =>
      let reqs := m.updated_requirements c parsed
      let m2 :=
        match existing with
        | some ex =>
          let fields := m.renamed_and_removed_fields ex
          if fields.isEmpty then m
          else m.update_templates_for_renamed_and_removed_fields c fields parsed
        | none => m
      ({ m2 with config := { m2.config with reqs := reqs } }, none)

/-- `Notetype::prepare_for_adding`: default an unset target deck to `1`,
then run the pipeline with no prior schema. -/
def Notetype.prepare_for_adding {PT : Type} (c : Collab PT) (nt : Notetype) :
    Notetype × Option AnkiError :=
  let nt1 :=
    if nt.config.target_deck_id = 0 then
      { nt with config := { nt.config with target_deck_id := 1 } }
    else nt
  nt1.prepare_for_update c none

/-! ### The schema store coordinator (`Collection`)

Modelled from the spec: the storage backend and the collection state are
outside this module (spec §6: "CRUD by identity/name", "name→identity
lookup").  Storage is the notetype table keyed by id; `ext` is the
opaque state of the dependent note/card records maintained by the two
external updaters; `cache` is the in-memory notetype cache.  The
`update_notetype` control flow itself is embedded from the source. -/
structure Collection (Ext : Type) where
  storage : List (Int × Notetype)
  cache : List (Int × Notetype)
  ext : Ext
  usn : Int
  norm : Bool
deriving DecidableEq

/-- Modelled from the spec: `storage.get_notetype_id(name)`
(name→identity lookup in the storage collaborator). -/
def getNotetypeIdByName (storage : List (Int × Notetype)) (name : String) : Option Int :=
  (storage.find? (fun p => p.2.name = name)).map (fun p => p.1)

/-- Modelled from the spec: the three
`update_notetype_config/fields/templates` storage writes, which together
replace the persisted row for the notetype's id. -/
def storageUpdateNotetype (storage : List (Int × Notetype)) (nt : Notetype) :
    List (Int × Notetype) :=
  storage.map (fun p => if p.1 = nt.id then (p.1, nt) else p)

/-- `Collection::get_notetype`: read-through cache (returns the possibly
cache-populating collection state alongside the result). -/
def Collection.get_notetype {Ext : Type} (col : Collection Ext) (ntid : Int) :
    Collection Ext × Option Notetype :=
  match col.cache.lookup ntid with
  | some nt => (col, some nt)
  | none =>
    match col.storage.lookup ntid with
    | some nt => ({ col with cache := (ntid, nt) :: col.cache }, some nt)
    | none => (col, none)

/-- `Collection::ensure_notetype_name_unique`: while another persisted
notetype holds the name, append `+` and re-stamp.  Each collision
matches a distinct persisted row (names strictly grow), so
`storage.length + 1` rounds always suffice for the structural bound. -/
def ensureNameUniqueGo (storage : List (Int × Notetype)) (usn now : Int) :
    Nat → Notetype → Notetype
  | 0, nt => nt
  | Nat.succ fuel, nt =>
    match getNotetypeIdByName storage nt.name with
    | some ntid =>
      if ntid = nt.id then nt
      else
        ensureNameUniqueGo storage usn now fuel
          (Notetype.set_modified { nt with name := nt.name ++ ⟨[plusChar]⟩ } usn now)
    | none => nt

def Collection.ensure_notetype_name_unique {Ext : Type} (col : Collection Ext)
    (nt : Notetype) (usn now : Int) : Notetype :=
  ensureNameUniqueGo col.storage usn now (col.storage.length + 1) nt

/-- The tail of the `update_notetype` transaction, common to both the
fresh-add-free paths: re-stamp unless `preserve_usn`, enforce global
name uniqueness, write config/fields/templates to storage, evict the
cache entry. -/
def updateNotetypeCommit {Ext : Type} (col : Collection Ext) (nt : Notetype)
    (preserve_usn : Bool) (now : Int) : Collection Ext × Notetype :=
  let usn := col.usn
  let nt1 := if preserve_usn then nt else nt.set_modified usn now
  let nt2 := col.ensure_notetype_name_unique nt1 usn now
  ({ col with
      storage := storageUpdateNotetype col.storage nt2
      cache := col.cache.filter (fun p => ¬ p.1 = nt2.id) },
   nt2)

/-- The closure passed to `transact_no_undo` in
`Collection::update_notetype`: the stale-schema check, the two external
dependent-record updaters, then the commit tail.  `updateNotesHook` and
`updateCardsHook` are the out-of-module collaborators
`update_notes_for_changed_fields` / `update_cards_for_changed_templates`
acting on the dependent-record state `Ext`. -/
def updateNotetypeInner {Ext : Type}
    (updateNotesHook : Ext → Notetype → Nat → Nat → Bool → Except AnkiError Ext)
    (updateCardsHook : Ext → Notetype → Nat → Except AnkiError Ext)
    (col : Collection Ext) (nt : Notetype) (existing : Option Notetype)
    (preserve_usn : Bool) (now : Int) :
    Except AnkiError (Collection Ext × Notetype) :=
  match existing with
  | some existing_notetype =>
    if existing_notetype.mtime_secs > nt.mtime_secs then
      Except.error (AnkiError.invalidInput "attempt to save stale notetype")
    else
      match updateNotesHook col.ext nt existing_notetype.fields.length
          existing_notetype.config.sort_field_idx col.norm with
      | Except.error e => Except.error e
      | Except.ok ext1 =>
        match updateCardsHook ext1 nt existing_notetype.templates.length with
        | Except.error e => Except.error e
        | Except.ok ext2 =>
          Except.ok (updateNotetypeCommit { col with ext := ext2 } nt preserve_usn now)
  | none => Except.ok (updateNotetypeCommit col nt preserve_usn now)

/-- `Collection::update_notetype`: load the persisted version, validate
with `prepare_for_update` outside the transaction, then run the
transactional closure.  On an error inside the closure the transaction
rolls back the storage and dependent-record state; the in-memory cache
survives, but the closure touches it only after its last fallible step,
so the pre-transaction collection state is restored exactly. -/
def Collection.update_notetype {PT Ext : Type} (c : Collab PT)
    (updateNotesHook : Ext → Notetype → Nat → Nat → Bool → Except AnkiError Ext)
    (updateCardsHook : Ext → Notetype → Nat → Except AnkiError Ext)
    (col : Collection Ext) (nt : Notetype) (preserve_usn : Bool) (now : Int) :
    Collection Ext × Notetype × Option AnkiError :=
  let loaded := col.get_notetype nt.id
  let col1 := loaded.1
  let existing := loaded.2
  let prepared := Notetype.prepare_for_update c nt existing
  match prepared.2 with
  | some e => (col1, prepared.1, some e)
  | none =>
    match updateNotetypeInner updateNotesHook updateCardsHook col1 prepared.1 existing
        preserve_usn now with
    | Except.error e => (col1, prepared.1, some e)
    | Except.ok r => (r.1, r.2, none)

/-! ### Concrete instances used to evaluate the development

A trivial template-language collaborator (every format except the
literal source `"BAD"` parses; requirements are a fixed two-element
ordinal set; sanitizers accept any name; NFC is the identity) and small
concrete notetypes / collections. -/

def collabW : Collab Unit where
  parse := fun s => if s = "BAD" then none else some ()
  requirements := fun _ _ => FieldRequirements.none
  renameAndRemoveFields := fun p _ => p
  templateToString := fun _ => "ser"
  fixFieldName := fun s => some s
  fixTemplateName := fun s => some s
  nfc := fun s => s

def configW : NotetypeConfig :=
  { kind := NotetypeKind.standard, sort_field_idx := 0, reqs := [], target_deck_id := 1 }

def ntW : Notetype :=
  { id := 1, name := "Basic", mtime_secs := 3, usn := 0
    fields := [{ ord := none, name := "Front" }, { ord := none, name := "Back" }]
    templates := [{ name := "Card 1", q_format := "q", a_format := "a" }]
    config := configW }

def ntCollideW : Notetype :=
  { id := 1, name := "Basic", mtime_secs := 3, usn := 0
    fields := [{ ord := none, name := "x" }, { ord := none, name := "x" }]
    templates :=
      [{ name := "a", q_format := "q", a_format := "a" },
       { name := "A", q_format := "q2", a_format := "a2" }]
    config := configW }

def ntSortW : Notetype :=
  { id := 1, name := "Basic", mtime_secs := 3, usn := 0
    fields :=
      [{ ord := some 2, name := "C" }, { ord := some 0, name := "A" },
       { ord := some 1, name := "B" }]
    templates := [{ name := "Card 1", q_format := "q", a_format := "a" }]
    config := { configW with sort_field_idx := 1 } }

def ntClozeW : Notetype :=
  { id := 2, name := "Cloze", mtime_secs := 3, usn := 0
    fields := [{ ord := some 0, name := "Text" }]
    templates := [{ name := "Cloze 1", q_format := "q", a_format := "a" }]
    config := { configW with kind := NotetypeKind.cloze } }

def ntOldW : Notetype :=
  { id := 1, name := "Basic", mtime_secs := 5, usn := 0
    fields := [{ ord := some 0, name := "Front" }, { ord := some 1, name := "Back" }]
    templates := [{ name := "Card 1", q_format := "qq", a_format := "aa" }]
    config := configW }

def colW : Collection Unit :=
  { storage := [(1, ntOldW)], cache := [], ext := (), usn := 7, norm := false }

def notesHookW : Unit → Notetype → Nat → Nat → Bool → Except AnkiError Unit :=
  fun _ _ _ _ _ => Except.ok ()

def cardsHookW : Unit → Notetype → Nat → Except AnkiError Unit :=
  fun _ _ _ => Except.ok ()

def ntEmptyW : Notetype := { ntW with fields := [] }

def ntBadW : Notetype :=
  { ntW with templates := [{ name := "Card 1", q_format := "BAD", a_format := "a" }] }

def ntRenameW : Notetype :=
  { id := 1, name := "Basic", mtime_secs := 6, usn := 0
    fields := [{ ord := some 0, name := "Question" }, { ord := none, name := "Extra" }]
    templates := [{ name := "Card 1", q_format := "q", a_format := "a" }]
    config := configW }

/-! ## Theorems -/

theorem str_ext {a b : String} (h : a.data = b.data) : a = b := by
  cases a; cases b; simp_all

theorem caseFold_data (s : String) : (caseFold s).data = s.data.map Char.toLower := rfl

theorem caseFold_length (s : String) : (caseFold s).length = s.length := by
  show (caseFold s).data.length = s.data.length
  rw [caseFold_data, List.length_map]

theorem append_plus_length (s : String) :
    (s ++ (⟨[plusChar]⟩ : String)).length = s.length + 1 := by
  show (s ++ (⟨[plusChar]⟩ : String)).data.length = s.data.length + 1
  rw [String.data_append]
  simp

theorem append_pluses_zero (s : String) : s ++ pluses 0 = s := by
  apply str_ext
  rw [String.data_append]
  simp [pluses]

theorem plus_append_pluses (k : Nat) :
    (⟨[plusChar]⟩ : String) ++ pluses k = pluses (k + 1) := by
  apply str_ext
  rw [String.data_append]
  simp [pluses, List.replicate_succ]

theorem length_filter_mono {α : Type} (p q : α → Bool) (h : ∀ a, p a = true → q a = true)
    (l : List α) : (l.filter p).length ≤ (l.filter q).length := by
  induction l with
  | nil => simp
  | cons a l ih =>
    by_cases hp : p a = true
    · simp [List.filter_cons, hp, h a hp]
      omega
    · by_cases hq : q a = true <;> simp [List.filter_cons, hp, hq] <;> omega

theorem length_filter_lt {α : Type} (p q : α → Bool) (h : ∀ a, p a = true → q a = true)
    (l : List α) (a : α) (ha : a ∈ l) (hq : q a = true) (hp : ¬ p a = true) :
    (l.filter p).length < (l.filter q).length := by
  induction l with
  | nil => cases ha
  | cons b l ih =>
    rcases List.mem_cons.mp ha with rfl | hmem
    · simp only [List.filter_cons, hq, hp, if_true, if_false]
      have := length_filter_mono p q h l
      simp [hp, hq]
      omega
    · by_cases hpb : p b = true
      · have := ih hmem
        simp [List.filter_cons, hpb, h b hpb]
        omega
      · by_cases hqb : q b = true <;> have := ih hmem <;>
          simp [List.filter_cons, hpb, hqb] <;> omega

theorem uniquifyNameGo_spec :
    ∀ (fuel : Nat) (taken : List String) (name : String),
      (taken.filter (fun t => decide (name.length ≤ t.length))).length < fuel →
      ∃ k, uniquifyNameGo fuel taken name = name ++ pluses k ∧
        caseFold (uniquifyNameGo fuel taken name) ∉ taken ∧
        (k = 0 ↔ caseFold name ∉ taken) := by
  intro fuel
  induction fuel with
  | zero => intro taken name h; omega
  | succ n ih =>
    intro taken name h
    by_cases hmem : caseFold name ∈ taken
    · have hstep : uniquifyNameGo (n + 1) taken name =
          uniquifyNameGo n taken (name ++ ⟨[plusChar]⟩) := by
        simp [uniquifyNameGo, hmem]
      have hfuel :
          (taken.filter
            (fun t => decide ((name ++ ⟨[plusChar]⟩).length ≤ t.length))).length < n := by
        have hstrict :
            (taken.filter
              (fun t => decide ((name ++ ⟨[plusChar]⟩).length ≤ t.length))).length <
            (taken.filter (fun t => decide (name.length ≤ t.length))).length := by
          apply length_filter_lt _ _ _ taken (caseFold name) hmem
          · simp [caseFold_length]
          · simp [append_plus_length, caseFold_length]
          · intro a ha
            simp only [decide_eq_true_eq] at ha ⊢
            rw [append_plus_length] at ha
            omega
        omega
      obtain ⟨k, hk, hnot, _⟩ := ih taken (name ++ ⟨[plusChar]⟩) hfuel
      refine ⟨k + 1, ?_, ?_, ?_⟩
      · rw [hstep, hk, String.append_assoc, plus_append_pluses]
      · rw [hstep]; exact hnot
      · simp [hmem]
    · refine ⟨0, ?_, ?_, ?_⟩
      · simp [uniquifyNameGo, hmem, append_pluses_zero]
      · simp [uniquifyNameGo, hmem]
      · simp [hmem]

theorem uniquifyName_spec (taken : List String) (name : String) :
    ∃ k, uniquifyName taken name = name ++ pluses k ∧
      caseFold (uniquifyName taken name) ∉ taken ∧
      (k = 0 ↔ caseFold name ∉ taken) := by
  apply uniquifyNameGo_spec
  have := List.length_filter_le (fun t => decide (name.length ≤ t.length)) taken
  omega

theorem uniquifyName_not_mem (taken : List String) (name : String) :
    caseFold (uniquifyName taken name) ∉ taken :=
  (uniquifyName_spec taken name).choose_spec.2.1

theorem uniquifyName_eq_of_not_mem {taken : List String} {name : String}
    (h : caseFold name ∉ taken) : uniquifyName taken name = name := by
  unfold uniquifyName uniquifyNameGo
  simp [h]

theorem uniquifyNames_cons (taken : List String) (n : String) (ns : List String) :
    uniquifyNames taken (n :: ns) =
      uniquifyName taken n ::
        uniquifyNames (caseFold (uniquifyName taken n) :: taken) ns := rfl

theorem uniquified_cons {α : Type} (getName : α → String) (withName : α → String → α)
    (taken : List String) (x : α) (xs : List α) :
    uniquified getName withName taken (x :: xs) =
      withName x (uniquifyName taken (getName x)) ::
        uniquified getName withName
          (caseFold (uniquifyName taken (getName x)) :: taken) xs := rfl

theorem uniquifyNames_length (ns : List String) :
    ∀ taken : List String, (uniquifyNames taken ns).length = ns.length := by
  induction ns with
  | nil => intro taken; rfl
  | cons n ns ih => intro taken; simp [uniquifyNames, ih]

theorem uniquifyNames_nodup (ns : List String) :
    ∀ taken : List String,
      ((uniquifyNames taken ns).map caseFold).Nodup ∧
      ∀ m ∈ (uniquifyNames taken ns).map caseFold, m ∉ taken := by
  induction ns with
  | nil => intro taken; simp [uniquifyNames]
  | cons n ns ih =>
    intro taken
    obtain ⟨hnd, hdisj⟩ := ih (caseFold (uniquifyName taken n) :: taken)
    refine ⟨?_, ?_⟩
    · rw [uniquifyNames_cons]
      simp only [List.map_cons, List.nodup_cons]
      refine ⟨?_, hnd⟩
      intro hmem
      exact (hdisj _ hmem) (List.mem_cons_self _ _)
    · intro m hm
      rw [uniquifyNames_cons] at hm
      simp only [List.map_cons, List.mem_cons] at hm
      rcases hm with rfl | hm
      · exact uniquifyName_not_mem taken n
      · intro hmt
        exact (hdisj _ hm) (List.mem_cons_of_mem _ hmt)

theorem uniquifyNames_get (ns : List String) :
    ∀ (taken : List String) (i : Nat) (hi : i < ns.length)
      (hi2 : i < (uniquifyNames taken ns).length),
      (uniquifyNames taken ns).get ⟨i, hi2⟩ =
        uniquifyName ((((uniquifyNames taken ns).take i).map caseFold).reverse ++ taken)
          (ns.get ⟨i, hi⟩) := by
  induction ns with
  | nil => intro taken i hi; simp at hi
  | cons n ns ih =>
    intro taken i hi hi2
    cases i with
    | zero => simp [uniquifyNames]
    | succ j =>
      have hj : j < ns.length := by simpa using hi
      have hj2 : j < (uniquifyNames (caseFold (uniquifyName taken n) :: taken) ns).length := by
        rw [uniquifyNames_length]
        exact hj
      have hcons : uniquifyNames taken (n :: ns) =
          uniquifyName taken n ::
            uniquifyNames (caseFold (uniquifyName taken n) :: taken) ns := rfl
      have hget :
          (uniquifyNames taken (n :: ns)).get ⟨j + 1, hi2⟩ =
          (uniquifyNames (caseFold (uniquifyName taken n) :: taken) ns).get ⟨j, hj2⟩ := by
        simp [hcons]
      rw [hget, ih (caseFold (uniquifyName taken n) :: taken) j hj hj2]
      congr 1
      rw [hcons]
      simp [List.take_succ_cons, List.reverse_cons, List.append_assoc]

theorem uniquifyNames_eq_self (ns : List String) :
    ∀ taken : List String, (ns.map caseFold).Nodup →
      (∀ m ∈ ns.map caseFold, m ∉ taken) → uniquifyNames taken ns = ns := by
  induction ns with
  | nil => intro taken _ _; rfl
  | cons n ns ih =>
    intro taken hnd hdisj
    have hn : caseFold n ∉ taken := hdisj _ (by simp)
    have he : uniquifyName taken n = n := uniquifyName_eq_of_not_mem hn
    rw [uniquifyNames_cons, he]
    simp only [List.map_cons, List.nodup_cons] at hnd
    refine congrArg (n :: ·) (ih _ hnd.2 ?_)
    intro m hm
    simp only [List.mem_cons, not_or]
    refine ⟨?_, hdisj _ (List.mem_cons_of_mem _ hm)⟩
    intro hcontra
    exact hnd.1 (hcontra ▸ hm)

theorem uniquified_map_name {α : Type} (getName : α → String) (withName : α → String → α)
    (hgw : ∀ x s, getName (withName x s) = s) (xs : List α) :
    ∀ taken : List String,
      (uniquified getName withName taken xs).map getName =
        uniquifyNames taken (xs.map getName) := by
  induction xs with
  | nil => intro taken; rfl
  | cons x xs ih =>
    intro taken
    rw [uniquified_cons]
    simp only [List.map_cons, hgw]
    rw [uniquifyNames_cons]
    exact congrArg _ (ih _)

theorem uniquified_map_g {α β : Type} (getName : α → String) (withName : α → String → α)
    (g : α → β) (hg : ∀ x s, g (withName x s) = g x) (xs : List α) :
    ∀ taken : List String, (uniquified getName withName taken xs).map g = xs.map g := by
  induction xs with
  | nil => intro taken; rfl
  | cons x xs ih =>
    intro taken
    rw [uniquified_cons]
    simp only [List.map_cons, hg]
    exact congrArg _ (ih _)

theorem uniquified_length {α : Type} (getName : α → String) (withName : α → String → α)
    (xs : List α) :
    ∀ taken : List String, (uniquified getName withName taken xs).length = xs.length := by
  induction xs with
  | nil => intro taken; rfl
  | cons x xs ih => intro taken; simp [uniquified, ih]

theorem uniquified_eq_self {α : Type} (getName : α → String) (withName : α → String → α)
    (hid : ∀ x, withName x (getName x) = x) (xs : List α) :
    ∀ taken : List String, ((xs.map getName).map caseFold).Nodup →
      (∀ m ∈ (xs.map getName).map caseFold, m ∉ taken) →
      uniquified getName withName taken xs = xs := by
  induction xs with
  | nil => intro taken _ _; rfl
  | cons x xs ih =>
    intro taken hnd hdisj
    have hn : caseFold (getName x) ∉ taken := hdisj _ (by simp)
    have he : uniquifyName taken (getName x) = getName x := uniquifyName_eq_of_not_mem hn
    rw [uniquified_cons]
    simp only [he, hid]
    simp only [List.map_cons, List.nodup_cons] at hnd
    refine congrArg (x :: ·) (ih _ hnd.2 ?_)
    intro m hm
    simp only [List.mem_cons, not_or]
    refine ⟨?_, hdisj _ (List.mem_cons_of_mem _ hm)⟩
    intro hcontra
    exact hnd.1 (hcontra ▸ hm)

theorem mem_take_fold (out : List String) (i : Nat) (m : String) :
    m ∈ (out.take i).map caseFold ↔
      ∃ j, ∃ hj : j < out.length, j < i ∧ caseFold (out.get ⟨j, hj⟩) = m := by
  simp only [List.mem_map, List.mem_take_iff_getElem]
  constructor
  · rintro ⟨x, ⟨j, hj, rfl⟩, rfl⟩
    refine ⟨j, by omega, by omega, ?_⟩
    simp [List.get_eq_getElem]
  · rintro ⟨j, hj, hji, rfl⟩
    refine ⟨out.get ⟨j, hj⟩, ⟨j, by omega, ?_⟩, rfl⟩
    simp [List.get_eq_getElem]

theorem ensure_names_unique_templates (nt : Notetype) :
    nt.ensure_names_unique.templates.map (fun t => t.name) =
      uniquifyNames [] (nt.templates.map (fun t => t.name)) :=
  uniquified_map_name _ _ (fun _ _ => rfl) _ _

theorem ensure_names_unique_fields (nt : Notetype) :
    nt.ensure_names_unique.fields.map (fun f => f.name) =
      uniquifyNames [] (nt.fields.map (fun f => f.name)) :=
  uniquified_map_name _ _ (fun _ _ => rfl) _ _

theorem uniquifyNames_keep_or_mutate (ns : List String) (i : Nat) (hi : i < ns.length)
    (hi2 : i < (uniquifyNames [] ns).length) :
    ∃ k, (uniquifyNames [] ns).get ⟨i, hi2⟩ = ns.get ⟨i, hi⟩ ++ pluses k ∧
      (k = 0 ↔ ∀ (j : Nat) (hj2 : j < (uniquifyNames [] ns).length), j < i →
        caseFold ((uniquifyNames [] ns).get ⟨j, hj2⟩) ≠ caseFold (ns.get ⟨i, hi⟩)) := by
  have hget := uniquifyNames_get ns [] i hi hi2
  set out := uniquifyNames [] ns with hout
  set tk := ((out.take i).map caseFold).reverse ++ ([] : List String) with htk
  obtain ⟨k, hk, _, hiff⟩ := uniquifyName_spec tk (ns.get ⟨i, hi⟩)
  refine ⟨k, by rw [hget, hk], ?_⟩
  rw [hiff, htk]
  simp only [List.append_nil, List.mem_reverse]
  rw [mem_take_fold]
  constructor
  · intro hno j hj2 hji
    intro hcontra
    exact hno ⟨j, hj2, hji, hcontra⟩
  · rintro hall ⟨j, hj, hji, hcontra⟩
    exact hall j hj hji hcontra

theorem ensure_names_unique_idem (nt : Notetype) :
    nt.ensure_names_unique.ensure_names_unique = nt.ensure_names_unique := by
  have ht :
      uniquified (fun t => t.name) (fun t n => { t with name := n }) []
        nt.ensure_names_unique.templates = nt.ensure_names_unique.templates := by
    apply uniquified_eq_self _ _ (fun _ => rfl)
    · rw [ensure_names_unique_templates]
      exact (uniquifyNames_nodup _ []).1
    · simp
  have hf :
      uniquified (fun f => f.name) (fun f n => { f with name := n }) []
        nt.ensure_names_unique.fields = nt.ensure_names_unique.fields := by
    apply uniquified_eq_self _ _ (fun _ => rfl)
    · rw [ensure_names_unique_fields]
      exact (uniquifyNames_nodup _ []).1
    · simp
  show ({ nt.ensure_names_unique with
      templates := uniquified (fun t => t.name) (fun t n => { t with name := n }) []
        nt.ensure_names_unique.templates
      fields := uniquified (fun f => f.name) (fun f n => { f with name := n }) []
        nt.ensure_names_unique.fields } : Notetype) = nt.ensure_names_unique
  rw [ht, hf]

/-- C2: after `ensure_names_unique` the template names are pairwise
distinct case-insensitively and so are the field names (the two
namespaces handled separately); each resulting name is the original name
with zero or more `+` markers appended, and it is left exactly equal to
the original (zero markers) precisely when no earlier item's final name
collides with it case-insensitively — so on a collision the earlier item
keeps its name and the later one is mutated; running
`ensure_names_unique` a second time changes nothing. -/
theorem C2_ensure_names_unique (nt : Notetype) :
    (nt.ensure_names_unique.templates.map (fun t => t.name) =
        uniquifyNames [] (nt.templates.map (fun t => t.name)) ∧
      nt.ensure_names_unique.fields.map (fun f => f.name) =
        uniquifyNames [] (nt.fields.map (fun f => f.name))) ∧
    ((nt.ensure_names_unique.templates.map (fun t => caseFold t.name)).Nodup ∧
      (nt.ensure_names_unique.fields.map (fun f => caseFold f.name)).Nodup) ∧
    (∀ (ns : List String) (i : Nat) (hi : i < ns.length)
        (hi2 : i < (uniquifyNames [] ns).length),
      ∃ k, (uniquifyNames [] ns).get ⟨i, hi2⟩ = ns.get ⟨i, hi⟩ ++ pluses k ∧
        (k = 0 ↔ ∀ (j : Nat) (hj2 : j < (uniquifyNames [] ns).length), j < i →
          caseFold ((uniquifyNames [] ns).get ⟨j, hj2⟩) ≠ caseFold (ns.get ⟨i, hi⟩))) ∧
    nt.ensure_names_unique.ensure_names_unique = nt.ensure_names_unique := by
  refine ⟨⟨ensure_names_unique_templates nt, ensure_names_unique_fields nt⟩, ⟨?_, ?_⟩,
    uniquifyNames_keep_or_mutate, ensure_names_unique_idem nt⟩
  · have h := (uniquifyNames_nodup (nt.templates.map (fun t => t.name)) []).1
    rw [← ensure_names_unique_templates] at h
    simpa [Function.comp] using h
  · have h := (uniquifyNames_nodup (nt.fields.map (fun f => f.name)) []).1
    rw [← ensure_names_unique_fields] at h
    simpa [Function.comp] using h

/-- C2 witness: concrete evaluation on a notetype whose template names
collide case-insensitively (`a` / `A`) and whose field names collide
exactly (`x` / `x`): the second template of `ntCollideW` is mutated. -/
theorem C2_ensure_names_unique_witness :
    ∃ k, (uniquifyNames [] (ntCollideW.templates.map (fun t => t.name))).get
        ⟨1, by decide⟩ =
        (ntCollideW.templates.map (fun t => t.name)).get ⟨1, by decide⟩ ++ pluses k ∧
      (k = 0 ↔ ∀ (j : Nat)
          (hj2 : j < (uniquifyNames [] (ntCollideW.templates.map (fun t => t.name))).length),
          j < 1 →
          caseFold ((uniquifyNames [] (ntCollideW.templates.map (fun t => t.name))).get
              ⟨j, hj2⟩) ≠
            caseFold ((ntCollideW.templates.map (fun t => t.name)).get ⟨1, by decide⟩)) :=
  (C2_ensure_names_unique ntCollideW).2.2.1 (ntCollideW.templates.map (fun t => t.name)) 1
    (by decide) (by decide)

/-- C9: `get_template` returns the first template for a Cloze notetype
regardless of the requested ordinal, `templates[ord]` for a Standard
notetype, and `NotFound` exactly when the selected position is empty
(any ordinal on an empty Cloze template list; an out-of-range ordinal
for Standard). -/
theorem C9_get_template (nt : Notetype) (card_ord : Nat) :
    (nt.config.kind = NotetypeKind.cloze → nt.templates ≠ [] →
      ∃ h : 0 < nt.templates.length,
        nt.get_template card_ord = Except.ok (nt.templates.get ⟨0, h⟩)) ∧
    (nt.config.kind = NotetypeKind.cloze → nt.templates = [] →
      nt.get_template card_ord = Except.error AnkiError.notFound) ∧
    (nt.config.kind ≠ NotetypeKind.cloze →
      ∀ h : card_ord < nt.templates.length,
        nt.get_template card_ord = Except.ok (nt.templates.get ⟨card_ord, h⟩)) ∧
    (nt.config.kind ≠ NotetypeKind.cloze → nt.templates.length ≤ card_ord →
      nt.get_template card_ord = Except.error AnkiError.notFound) := by
  refine ⟨?_, ?_, ?_, ?_⟩
  · intro hk hne
    have hlen : 0 < nt.templates.length := List.length_pos.mpr hne
    refine ⟨hlen, ?_⟩
    rw [Notetype.get_template, if_pos hk, List.get?_eq_get hlen]
  · intro hk hnil
    rw [Notetype.get_template]
    simp [hk, hnil]
  · intro hk h
    rw [Notetype.get_template]
    simp only [if_neg hk]
    rw [List.get?_eq_get h]
  · intro hk h
    rw [Notetype.get_template]
    simp only [if_neg hk]
    rw [List.get?_eq_none.mpr h]

/-- C9 witness: a Cloze notetype with one template serves card ordinal 5
from its single template. -/
theorem C9_get_template_witness :
    ∃ h : 0 < ntClozeW.templates.length,
      ntClozeW.get_template 5 = Except.ok (ntClozeW.templates.get ⟨0, h⟩) :=
  (C9_get_template ntClozeW 5).1 rfl (by decide)

theorem findMatchingOrd_shift (target : Nat) (fs : List NoteField) :
    ∀ start : Nat,
      findMatchingOrd target start fs =
        (findMatchingOrd target 0 fs).map (fun x => x + start) := by
  induction fs with
  | nil => intro start; rfl
  | cons f fs ih =>
    intro start
    by_cases h : f.ord = some target
    · simp [findMatchingOrd, h]
    · rw [findMatchingOrd, findMatchingOrd, if_neg h, if_neg h, ih (start + 1), ih 1]
      cases findMatchingOrd target 0 fs with
      | none => rfl
      | some v =>
        simp only [Option.map_some']
        exact congrArg some (by omega)

theorem findMatchingOrd_zero_some (target : Nat) :
    ∀ (fs : List NoteField) (i : Nat), findMatchingOrd target 0 fs = some i →
      ∃ h : i < fs.length, (fs.get ⟨i, h⟩).ord = some target ∧
        ∀ j (hj : j < fs.length), j < i → (fs.get ⟨j, hj⟩).ord ≠ some target := by
  intro fs
  induction fs with
  | nil => intro i h; cases h
  | cons f fs ih =>
    intro i h
    by_cases hf : f.ord = some target
    · rw [findMatchingOrd, if_pos hf] at h
      cases h
      exact ⟨by simp, hf, fun j hj hji => absurd hji (by omega)⟩
    · rw [findMatchingOrd, if_neg hf, findMatchingOrd_shift] at h
      cases hfind : findMatchingOrd target 0 fs with
      | none => rw [hfind] at h; cases h
      | some v =>
        rw [hfind] at h
        simp only [Option.map_some', Option.some.injEq] at h
        obtain ⟨hv, hvord, hleast⟩ := ih v hfind
        subst h
        refine ⟨by simp; omega, ?_, ?_⟩
        · simpa using hvord
        · intro j hj hji
          cases j with
          | zero => simpa using hf
          | succ j2 =>
            have hj2 : j2 < fs.length := by simp at hj; omega
            have := hleast j2 hj2 (by omega)
            simpa using this

theorem findMatchingOrd_zero_none (target : Nat) :
    ∀ fs : List NoteField,
      findMatchingOrd target 0 fs = none ↔ ∀ f ∈ fs, f.ord ≠ some target := by
  intro fs
  induction fs with
  | nil => simp [findMatchingOrd]
  | cons f fs ih =>
    by_cases hf : f.ord = some target
    · rw [findMatchingOrd, if_pos hf]
      simp [hf]
    · rw [findMatchingOrd, if_neg hf, findMatchingOrd_shift]
      cases hfind : findMatchingOrd target 0 fs with
      | none =>
        simp only [Option.map_none']
        rw [hfind] at ih
        simp [hf, ← ih]
      | some v =>
        simp only [Option.map_some']
        rw [hfind] at ih
        simp only [List.mem_cons]
        constructor
        · intro hc; cases hc
        · intro hall
          exact absurd (ih.mpr (fun g hg => hall g (Or.inr hg))) (by simp)

/-- C4: for a notetype with a non-empty field list,
`reposition_sort_idx` rewrites the configured sort index to the new
position of the first field whose prior ordinal equals the configured
index; when no field carries that prior ordinal it clamps the stored
index into `[0, fields.length - 1]`; either way the result is a valid
index into the (unchanged) field list. -/
theorem C4_reposition_sort_idx (nt : Notetype) (hne : nt.fields ≠ []) :
    (∀ i : Nat, findMatchingOrd nt.config.sort_field_idx 0 nt.fields = some i →
      nt.reposition_sort_idx.config.sort_field_idx = i ∧
      ∃ h : i < nt.fields.length,
        (nt.fields.get ⟨i, h⟩).ord = some nt.config.sort_field_idx ∧
        ∀ j (hj : j < nt.fields.length), j < i →
          (nt.fields.get ⟨j, hj⟩).ord ≠ some nt.config.sort_field_idx) ∧
    ((∀ f ∈ nt.fields, f.ord ≠ some nt.config.sort_field_idx) →
      nt.reposition_sort_idx.config.sort_field_idx =
        Nat.min nt.config.sort_field_idx (nt.fields.length - 1)) ∧
    nt.reposition_sort_idx.config.sort_field_idx < nt.fields.length ∧
    nt.reposition_sort_idx.fields = nt.fields := by
  have hlen : 0 < nt.fields.length := List.length_pos.mpr hne
  refine ⟨?_, ?_, ?_, rfl⟩
  · intro i hi
    refine ⟨?_, findMatchingOrd_zero_some _ _ _ hi⟩
    rw [Notetype.reposition_sort_idx]
    simp [hi]
  · intro hnone
    have hfind : findMatchingOrd nt.config.sort_field_idx 0 nt.fields = none :=
      (findMatchingOrd_zero_none _ _).mpr hnone
    rw [Notetype.reposition_sort_idx]
    simp [hfind, Nat.max_eq_left (Nat.zero_le _)]
  · rw [Notetype.reposition_sort_idx]
    cases hfind : findMatchingOrd nt.config.sort_field_idx 0 nt.fields with
    | some i =>
      obtain ⟨hi, _, _⟩ := findMatchingOrd_zero_some _ _ _ hfind
      simpa using hi
    | none =>
      simp only
      have : Nat.min (Nat.max nt.config.sort_field_idx 0) (nt.fields.length - 1) ≤
          nt.fields.length - 1 := Nat.min_le_right _ _
      omega

/-- C4 witness: fields `[C, A, B]` carrying prior ordinals `[2, 0, 1]`
with configured sort index 1 (the field previously at position 1, `B`):
the sort index is rewritten to `B`'s new position 2. -/
theorem C4_reposition_sort_idx_witness :
    ntSortW.reposition_sort_idx.config.sort_field_idx = 2 ∧
    ∃ h : 2 < ntSortW.fields.length,
      (ntSortW.fields.get ⟨2, h⟩).ord = some ntSortW.config.sort_field_idx ∧
      ∀ j (hj : j < ntSortW.fields.length), j < 2 →
        (ntSortW.fields.get ⟨j, hj⟩).ord ≠ some ntSortW.config.sort_field_idx :=
  (C4_reposition_sort_idx ntSortW (by decide)).1 2 (by decide)

theorem fixFieldNamesM_ok_length {PT : Type} (c : Collab PT) :
    ∀ fs fs2 : List NoteField, fixFieldNamesM c fs = Except.ok fs2 →
      fs2.length = fs.length := by
  intro fs
  induction fs with
  | nil => intro fs2 h; cases h; rfl
  | cons f fs ih =>
    intro fs2 h
    rw [fixFieldNamesM] at h
    cases hn : c.fixFieldName f.name with
    | none => rw [hn] at h; cases h
    | some n =>
      rw [hn] at h
      cases hrest : fixFieldNamesM c fs with
      | error e => rw [hrest] at h; cases h
      | ok rest =>
        rw [hrest] at h
        cases h
        simp [ih rest hrest]

theorem fixTemplateNamesM_ok {PT : Type} (c : Collab PT) :
    ∀ ts ts2 : List CardTemplate, fixTemplateNamesM c ts = Except.ok ts2 →
      ts2.length = ts.length ∧
      ts2.map (fun t => t.q_format) = ts.map (fun t => t.q_format) ∧
      ts2.map (fun t => t.a_format) = ts.map (fun t => t.a_format) := by
  intro ts
  induction ts with
  | nil => intro ts2 h; cases h; exact ⟨rfl, rfl, rfl⟩
  | cons t ts ih =>
    intro ts2 h
    rw [fixTemplateNamesM] at h
    cases hn : c.fixTemplateName t.name with
    | none => rw [hn] at h; cases h
    | some n =>
      rw [hn] at h
      cases hrest : fixTemplateNamesM c ts with
      | error e => rw [hrest] at h; cases h
      | ok rest =>
        rw [hrest] at h
        cases h
        obtain ⟨h1, h2, h3⟩ := ih rest hrest
        exact ⟨by simp [h1], by simp [h2], by simp [h3]⟩

theorem preReposition_ok {PT : Type} (c : Collab PT) (nt m : Notetype)
    (h : nt.preReposition c = (m, none)) :
    nt.fields ≠ [] ∧ nt.templates ≠ [] ∧ stripQuotes nt.name ≠ "" ∧
    m.name = c.nfc (stripQuotes nt.name) ∧
    m.fields.length = nt.fields.length ∧
    m.templates.length = nt.templates.length ∧
    m.templates.map (fun t => t.q_format) = nt.templates.map (fun t => t.q_format) ∧
    m.templates.map (fun t => t.a_format) = nt.templates.map (fun t => t.a_format) ∧
    m.config = nt.config ∧ m.mtime_secs = nt.mtime_secs ∧ m.id = nt.id ∧
    m.usn = nt.usn := by
  rw [Notetype.preReposition] at h
  by_cases h1 : nt.fields.isEmpty
  · rw [if_pos h1] at h
    exact absurd (congrArg Prod.snd h) (by simp)
  rw [if_neg h1] at h
  by_cases h2 : nt.templates.isEmpty
  · rw [if_pos h2] at h
    exact absurd (congrArg Prod.snd h) (by simp)
  rw [if_neg h2] at h
  simp only at h
  by_cases h3 : stripQuotes nt.name = ""
  · rw [if_pos h3] at h
    exact absurd (congrArg Prod.snd h) (by simp)
  rw [if_neg h3] at h
  cases hfix : fixFieldNamesM c (({ nt with name := stripQuotes nt.name } : Notetype).normalize_names c).fields with
  | error e =>
    rw [hfix] at h
    exact absurd (congrArg Prod.snd h) (by simp)
  | ok fs =>
    rw [hfix] at h
    simp only at h
    cases hfixt : fixTemplateNamesM c
        ({ (({ nt with name := stripQuotes nt.name } : Notetype).normalize_names c) with
            fields := fs } : Notetype).templates with
    | error e =>
      rw [hfixt] at h
      exact absurd (congrArg Prod.snd h) (by simp)
    | ok ts =>
      rw [hfixt] at h
      simp only at h
      have hm : m =
          ({ (({ nt with name := stripQuotes nt.name } : Notetype).normalize_names c) with
              fields := fs, templates := ts } : Notetype).ensure_names_unique := by
        have := congrArg Prod.fst h
        simpa using this.symm
      subst hm
      have hfslen : fs.length = nt.fields.length := by
        have := fixFieldNamesM_ok_length c _ _ hfix
        simpa [Notetype.normalize_names] using this
      obtain ⟨htslen, htsq, htsa⟩ := fixTemplateNamesM_ok c _ _ hfixt
      refine ⟨by simpa [List.isEmpty_iff] using h1, by simpa [List.isEmpty_iff] using h2,
        h3, rfl, ?_, ?_, ?_, ?_, rfl, rfl, rfl, rfl⟩
      · show (uniquified _ _ [] fs).length = nt.fields.length
        rw [uniquified_length]
        exact hfslen
      · show (uniquified _ _ [] ts).length = nt.templates.length
        rw [uniquified_length, htslen]
        simp [Notetype.normalize_names]
      · show (uniquified _ _ [] ts).map (fun t => t.q_format) =
          nt.templates.map (fun t => t.q_format)
        rw [uniquified_map_g (fun t : CardTemplate => t.name)
          (fun (t : CardTemplate) n => { t with name := n })
          (fun t : CardTemplate => t.q_format) (fun _ _ => rfl), htsq]
        show (nt.templates.map fun t => { t with name := c.nfc t.name }).map
            (fun t => t.q_format) = _
        rw [List.map_map]
        rfl
      · show (uniquified _ _ [] ts).map (fun t => t.a_format) =
          nt.templates.map (fun t => t.a_format)
        rw [uniquified_map_g (fun t : CardTemplate => t.name)
          (fun (t : CardTemplate) n => { t with name := n })
          (fun t : CardTemplate => t.a_format) (fun _ _ => rfl), htsa]
        show (nt.templates.map fun t => { t with name := c.nfc t.name }).map
            (fun t => t.a_format) = _
        rw [List.map_map]
        rfl

/-- C10: the clamping branch of `reposition_sort_idx` evaluates
`fields.len() - 1`, which underflows (panics) when the field list is
empty; with at least one field the function is total; and inside the
pipeline the panic is unreachable, because an empty field list is
rejected with `InvalidInput` before `reposition_sort_idx` runs, so the
repositioning step always receives a non-empty field list. -/
theorem C10_reposition_empty_panic :
    (∀ nt : Notetype, nt.fields = [] → reposition_sort_idx_checked nt = none) ∧
    (∀ nt : Notetype, nt.fields ≠ [] →
      reposition_sort_idx_checked nt = some nt.reposition_sort_idx) ∧
    (∀ (PT : Type) (c : Collab PT) (nt m : Notetype), nt.preReposition c = (m, none) →
      m.fields ≠ [] ∧ reposition_sort_idx_checked m = some m.reposition_sort_idx ∧
      nt.fixNamesStage c = (m.reposition_sort_idx, none)) := by
  have hsome : ∀ nt : Notetype, nt.fields ≠ [] →
      reposition_sort_idx_checked nt = some nt.reposition_sort_idx := by
    intro nt hne
    have hlen : nt.fields.length ≠ 0 := by
      have := List.length_pos.mpr hne
      omega
    rw [reposition_sort_idx_checked, Notetype.reposition_sort_idx]
    cases hfind : findMatchingOrd nt.config.sort_field_idx 0 nt.fields with
    | some i => rfl
    | none => rw [if_neg hlen]
  refine ⟨?_, hsome, ?_⟩
  · intro nt hnil
    rw [reposition_sort_idx_checked, hnil]
    rfl
  · intro PT c nt m hpre
    obtain ⟨hfne, -, -, -, hflen, -⟩ := preReposition_ok c nt m hpre
    have hmne : m.fields ≠ [] := by
      intro hcontra
      apply hfne
      have := hflen
      rw [hcontra] at this
      exact List.length_eq_zero.mp this.symm
    refine ⟨hmne, hsome m hmne, ?_⟩
    rw [Notetype.fixNamesStage, hpre]

/-- C10 witness: on a notetype with an empty field list the clamping
branch is reached and the `usize` subtraction underflows (modelled as
`none`); a one-field notetype evaluates totally. -/
theorem C10_reposition_empty_panic_witness :
    reposition_sort_idx_checked ntEmptyW = none ∧
    reposition_sort_idx_checked ntW = some ntW.reposition_sort_idx :=
  ⟨C10_reposition_empty_panic.1 ntEmptyW (by decide),
   C10_reposition_empty_panic.2.1 ntW (by decide)⟩

theorem invalidCardIdxGo_some {PT : Type} :
    ∀ (l : List (Option PT × Option PT)) (s i : Nat),
      invalidCardIdxGo s l = some i →
      ∃ j, i = s + j ∧ ∃ hj : j < l.length,
        ((l.get ⟨j, hj⟩).1 = none ∨ (l.get ⟨j, hj⟩).2 = none) ∧
        ∀ j2 (hj2 : j2 < l.length), j2 < j →
          (l.get ⟨j2, hj2⟩).1 ≠ none ∧ (l.get ⟨j2, hj2⟩).2 ≠ none := by
  intro l
  induction l with
  | nil => intro s i h; cases h
  | cons p l ih =>
    intro s i h
    obtain ⟨q, a⟩ := p
    rw [invalidCardIdxGo] at h
    by_cases hbad : (q.isNone || a.isNone) = true
    · rw [if_pos hbad] at h
      cases h
      refine ⟨0, by omega, by simp, ?_, ?_⟩
      · simpa [Option.isNone_iff_eq_none] using hbad
      · intro j2 hj2 hcontra
        omega
    · rw [if_neg hbad] at h
      obtain ⟨j, hji, hj, hbadj, hleast⟩ := ih (s + 1) i h
      simp only [Bool.or_eq_true, Option.isNone_iff_eq_none, not_or] at hbad
      refine ⟨j + 1, by omega, by simp; omega, by simpa using hbadj, ?_⟩
      intro j2 hj2 hlt
      cases j2 with
      | zero => simpa using hbad
      | succ j3 =>
        have hj3 : j3 < l.length := by simp at hj2; omega
        have := hleast j3 hj3 (by omega)
        simpa using this

theorem invalidCardIdx_some {PT : Type} (l : List (Option PT × Option PT)) (i : Nat)
    (h : invalidCardIdx l = some i) :
    ∃ hi : i < l.length,
      ((l.get ⟨i, hi⟩).1 = none ∨ (l.get ⟨i, hi⟩).2 = none) ∧
      ∀ j (hj : j < l.length), j < i →
        (l.get ⟨j, hj⟩).1 ≠ none ∧ (l.get ⟨j, hj⟩).2 ≠ none := by
  obtain ⟨j, hji, hj, hbad, hleast⟩ := invalidCardIdxGo_some l 0 i h
  have : i = j := by omega
  subst this
  exact ⟨hj, hbad, hleast⟩

theorem fixNamesStage_ok {PT : Type} (c : Collab PT) (nt m : Notetype)
    (h : nt.fixNamesStage c = (m, none)) :
    nt.fields ≠ [] ∧ nt.templates ≠ [] ∧ stripQuotes nt.name ≠ "" ∧
    m.name = c.nfc (stripQuotes nt.name) ∧
    m.fields.length = nt.fields.length ∧
    m.templates.length = nt.templates.length ∧
    m.templates.map (fun t => t.q_format) = nt.templates.map (fun t => t.q_format) ∧
    m.templates.map (fun t => t.a_format) = nt.templates.map (fun t => t.a_format) ∧
    m.config.reqs = nt.config.reqs ∧ m.mtime_secs = nt.mtime_secs ∧
    m.id = nt.id ∧ m.usn = nt.usn := by
  rw [Notetype.fixNamesStage] at h
  cases hpre : nt.preReposition c with
  | mk m0 err =>
    rw [hpre] at h
    cases err with
    | some e => simp at h
    | none =>
      simp only at h
      have hm : m = m0.reposition_sort_idx := (congrArg Prod.fst h).symm
      obtain ⟨g1, g2, g3, g4, g5, g6, g7, g8, g9, g10, g11, g12⟩ :=
        preReposition_ok c nt m0 hpre
      subst hm
      exact ⟨g1, g2, g3, g4, g5, g6, g7, g8, by rw [show m0.reposition_sort_idx.config.reqs = m0.config.reqs from rfl, g9],
        g10, g11, g12⟩

theorem prepare_error_of_invalid {PT : Type} (c : Collab PT) (nt m : Notetype)
    (existing : Option Notetype) (idx : Nat)
    (hfix : nt.fixNamesStage c = (m, none))
    (hidx : invalidCardIdx (m.parsed_templates c) = some idx) :
    nt.prepare_for_update c existing = (m, some (AnkiError.templateSaveError m.name idx)) := by
  simp only [Notetype.prepare_for_update, hfix, hidx]

/-- C3: when, after the name-fixing stage, some template's question or
answer fails to parse, `prepare_for_update` returns a
`TemplateSaveError` carrying the normalized (quote-stripped,
NFC-normalized) notetype name together with the smallest ordinal of a
template with a failed parse, and the stored requirements config is
left untouched. -/
theorem C3_template_save_error {PT : Type} (c : Collab PT) (nt m : Notetype)
    (existing : Option Notetype) (idx : Nat)
    (hfix : nt.fixNamesStage c = (m, none))
    (hidx : invalidCardIdx (m.parsed_templates c) = some idx) :
    nt.prepare_for_update c existing = (m, some (AnkiError.templateSaveError m.name idx)) ∧
    m.name = c.nfc (stripQuotes nt.name) ∧
    m.config.reqs = nt.config.reqs ∧
    (∃ hi : idx < (m.parsed_templates c).length,
      (((m.parsed_templates c).get ⟨idx, hi⟩).1 = none ∨
        ((m.parsed_templates c).get ⟨idx, hi⟩).2 = none)) ∧
    ∀ j (hj : j < (m.parsed_templates c).length), j < idx →
      ((m.parsed_templates c).get ⟨j, hj⟩).1 ≠ none ∧
      ((m.parsed_templates c).get ⟨j, hj⟩).2 ≠ none := by
  obtain ⟨-, -, -, hname, -, -, -, -, hreqs, -, -, -⟩ := fixNamesStage_ok c nt m hfix
  obtain ⟨hi, hbad, hleast⟩ := invalidCardIdx_some _ _ hidx
  exact ⟨prepare_error_of_invalid c nt m existing idx hfix hidx, hname, hreqs,
    ⟨hi, hbad⟩, hleast⟩

/-- C3 witness: a notetype whose single template's question format is
the unparseable source `BAD` fails with ordinal 0 and the fixed-stage
name, leaving the requirements config untouched. -/
theorem C3_template_save_error_witness :
    ntBadW.prepare_for_update collabW none =
      ((ntBadW.fixNamesStage collabW).1,
        some (AnkiError.templateSaveError (ntBadW.fixNamesStage collabW).1.name 0)) ∧
    (ntBadW.fixNamesStage collabW).1.config.reqs = ntBadW.config.reqs :=
  ⟨(C3_template_save_error collabW ntBadW (ntBadW.fixNamesStage collabW).1 none 0
      (by decide) (by decide)).1,
   (C3_template_save_error collabW ntBadW (ntBadW.fixNamesStage collabW).1 none 0
      (by decide) (by decide)).2.2.1⟩

theorem prepare_ok_inv {PT : Type} (c : Collab PT) (nt : Notetype)
    (existing : Option Notetype) (nt' : Notetype)
    (h : nt.prepare_for_update c existing = (nt', none)) :
    ∃ m m2 : Notetype, nt.fixNamesStage c = (m, none) ∧
      invalidCardIdx (m.parsed_templates c) = none ∧
      (existing = none → m2 = m) ∧
      (∀ ex, existing = some ex →
        ((m.renamed_and_removed_fields ex).isEmpty = true → m2 = m) ∧
        (¬ (m.renamed_and_removed_fields ex).isEmpty = true →
          m2 = m.update_templates_for_renamed_and_removed_fields c
            (m.renamed_and_removed_fields ex) (m.parsed_templates c))) ∧
      nt' = { m2 with config :=
        { m2.config with reqs := m.updated_requirements c (m.parsed_templates c) } } := by
  simp only [Notetype.prepare_for_update] at h
  cases hfix : nt.fixNamesStage c with
  | mk m err =>
    rw [hfix] at h
    cases err with
    | some e => simp at h
    | none =>
      simp only at h
      cases hidx : invalidCardIdx (m.parsed_templates c) with
      | some idx => rw [hidx] at h; simp at h
      | none =>
        rw [hidx] at h
        simp only at h
        cases existing with
        | none =>
          simp only at h
          refine ⟨m, m, rfl, hidx, fun _ => rfl, by simp, ?_⟩
          exact (congrArg Prod.fst h).symm
        | some ex =>
          simp only at h
          by_cases hemp : (m.renamed_and_removed_fields ex).isEmpty = true
          · rw [if_pos hemp] at h
            refine ⟨m, m, rfl, hidx, by simp, ?_, (congrArg Prod.fst h).symm⟩
            intro ex2 hex2
            cases hex2
            exact ⟨fun _ => rfl, fun hc => absurd hemp hc⟩
          · rw [if_neg hemp] at h
            refine ⟨m, m.update_templates_for_renamed_and_removed_fields c
              (m.renamed_and_removed_fields ex) (m.parsed_templates c),
              rfl, hidx, by simp, ?_, (congrArg Prod.fst h).symm⟩
            intro ex2 hex2
            cases hex2
            exact ⟨fun hc => absurd hc hemp, fun _ => rfl⟩

theorem update_templates_preserves {PT : Type} (c : Collab PT) (nt : Notetype)
    (fields : List (String × Option String)) (parsed : List (Option PT × Option PT)) :
    (nt.update_templates_for_renamed_and_removed_fields c fields parsed).name = nt.name ∧
    (nt.update_templates_for_renamed_and_removed_fields c fields parsed).config = nt.config ∧
    (nt.update_templates_for_renamed_and_removed_fields c fields parsed).fields =
      nt.fields ∧
    (nt.update_templates_for_renamed_and_removed_fields c fields parsed).mtime_secs =
      nt.mtime_secs :=
  ⟨rfl, rfl, rfl, rfl⟩

theorem updateTemplatesGo_length {PT : Type} (c : Collab PT)
    (fields : List (String × Option String)) :
    ∀ (ts : List CardTemplate) (ps : List (Option PT × Option PT)),
      (updateTemplatesGo c fields ts ps).length = ts.length := by
  intro ts
  induction ts with
  | nil => intro ps; cases ps <;> rfl
  | cons t ts ih =>
    intro ps
    cases ps with
    | nil => rfl
    | cons p ps =>
      obtain ⟨q, a⟩ := p
      simp only [updateTemplatesGo, List.length_cons, ih]

theorem prepare_ok_shape {PT : Type} (c : Collab PT) (nt : Notetype)
    (existing : Option Notetype) (nt' : Notetype)
    (h : nt.prepare_for_update c existing = (nt', none)) :
    ∃ m : Notetype, nt.fixNamesStage c = (m, none) ∧
      invalidCardIdx (m.parsed_templates c) = none ∧
      nt'.name = m.name ∧ nt'.mtime_secs = m.mtime_secs ∧
      nt'.fields = m.fields ∧
      nt'.config.sort_field_idx = m.config.sort_field_idx ∧
      nt'.templates.length = m.templates.length ∧
      nt'.config.reqs = m.updated_requirements c (m.parsed_templates c) := by
  obtain ⟨m, m2, hfix, hidx, hnone, hsome, hnt⟩ := prepare_ok_inv c nt existing nt' h
  have hm2 : m2.name = m.name ∧ m2.config = m.config ∧ m2.fields = m.fields ∧
      m2.mtime_secs = m.mtime_secs ∧ m2.templates.length = m.templates.length := by
    cases existing with
    | none =>
      rw [hnone rfl]
      exact ⟨rfl, rfl, rfl, rfl, rfl⟩
    | some ex =>
      by_cases hemp : (m.renamed_and_removed_fields ex).isEmpty = true
      · rw [(hsome ex rfl).1 hemp]
        exact ⟨rfl, rfl, rfl, rfl, rfl⟩
      · rw [(hsome ex rfl).2 hemp]
        refine ⟨rfl, rfl, rfl, rfl, ?_⟩
        show (updateTemplatesGo c _ m.templates _).length = m.templates.length
        rw [updateTemplatesGo_length]
  subst hnt
  exact ⟨m, hfix, hidx, hm2.1, hm2.2.2.2.1, hm2.2.2.1,
    by show m2.config.sort_field_idx = _; rw [hm2.2.1], hm2.2.2.2.2, rfl⟩

theorem stripQuotes_no_quote (s : String) : quoteChar ∉ (stripQuotes s).data := by
  rw [stripQuotes]
  by_cases h : s.data.any (fun ch => ch = quoteChar)
  · rw [if_pos h]
    intro hmem
    have := List.mem_filter.mp hmem
    simp at this
  · rw [if_neg h]
    intro hmem
    apply h
    simp only [List.any_eq_true, decide_eq_true_eq]
    exact ⟨quoteChar, hmem, rfl⟩

/-- C7: `prepare_for_update` rejects an empty field list and an empty
template list with `InvalidInput`; it strips every `"` from the notetype
name and rejects with `InvalidInput` when the name is empty after
stripping; on success the final name is the NFC form of the stripped
name, non-empty and quote-free (given that NFC normalization preserves
non-emptiness and quote-freeness, which holds for Unicode canonical
composition). -/
theorem C7_empty_and_name_guards {PT : Type} (c : Collab PT) (nt : Notetype)
    (existing : Option Notetype) :
    (nt.fields = [] →
      nt.prepare_for_update c existing =
        (nt, some (AnkiError.invalidInput "1 field required"))) ∧
    (nt.fields ≠ [] → nt.templates = [] →
      nt.prepare_for_update c existing =
        (nt, some (AnkiError.invalidInput "1 template required"))) ∧
    (nt.fields ≠ [] → nt.templates ≠ [] → stripQuotes nt.name = "" →
      nt.prepare_for_update c existing =
        ({ nt with name := stripQuotes nt.name },
          some (AnkiError.invalidInput "Empty note type name"))) ∧
    (∀ s : String, quoteChar ∉ (stripQuotes s).data) ∧
    ((∀ s : String, s ≠ "" → c.nfc s ≠ "") →
      (∀ s : String, quoteChar ∉ s.data → quoteChar ∉ (c.nfc s).data) →
      ∀ nt', nt.prepare_for_update c existing = (nt', none) →
        nt'.name = c.nfc (stripQuotes nt.name) ∧ nt'.name ≠ "" ∧
        quoteChar ∉ nt'.name.data) := by
  refine ⟨?_, ?_, ?_, stripQuotes_no_quote, ?_⟩
  · intro hnil
    have he : nt.fields.isEmpty = true := by simp [hnil]
    simp [Notetype.prepare_for_update, Notetype.fixNamesStage, Notetype.preReposition, he]
  · intro hne hnil
    have he : ¬ nt.fields.isEmpty = true := by simp [hne]
    have ht : nt.templates.isEmpty = true := by simp [hnil]
    simp [Notetype.prepare_for_update, Notetype.fixNamesStage, Notetype.preReposition,
      he, ht]
  · intro hne htne hname
    have he : ¬ nt.fields.isEmpty = true := by simp [hne]
    have ht : ¬ nt.templates.isEmpty = true := by simp [htne]
    simp [Notetype.prepare_for_update, Notetype.fixNamesStage, Notetype.preReposition,
      he, ht, hname]
  · intro hnfc1 hnfc2 nt' h
    obtain ⟨m, hfix, -, hname, -⟩ := prepare_ok_shape c nt existing nt' h
    obtain ⟨-, -, hstrip, hmname, -⟩ := fixNamesStage_ok c nt m hfix
    rw [hname, hmname]
    exact ⟨rfl, hnfc1 _ hstrip, hnfc2 _ (stripQuotes_no_quote nt.name)⟩

/-- C7 witness: the guard fires on an empty field list, and on a
successful run of the pipeline the name survives non-empty and
quote-free. -/
theorem C7_empty_and_name_guards_witness :
    ntEmptyW.prepare_for_update collabW none =
      (ntEmptyW, some (AnkiError.invalidInput "1 field required")) ∧
    ((ntW.prepare_for_update collabW none).1.name = collabW.nfc (stripQuotes ntW.name) ∧
      (ntW.prepare_for_update collabW none).1.name ≠ "" ∧
      quoteChar ∉ (ntW.prepare_for_update collabW none).1.name.data) :=
  ⟨(C7_empty_and_name_guards collabW ntEmptyW none).1 (by decide),
   (C7_empty_and_name_guards collabW ntW none).2.2.2.2
     (fun s hs => by simpa [collabW] using hs)
     (fun s hs => by simpa [collabW] using hs)
     (ntW.prepare_for_update collabW none).1 (by decide)⟩

theorem updatedRequirementsGo_length {PT : Type} (c : Collab PT) (fm : List (String × Nat)) :
    ∀ (l : List (Option PT × Option PT)) (s : Nat),
      (updatedRequirementsGo c fm s l).length = l.length := by
  intro l
  induction l with
  | nil => intro s; rfl
  | cons p l ih =>
    intro s
    obtain ⟨q, a⟩ := p
    simp only [updatedRequirementsGo, List.length_cons, ih]

theorem updatedRequirementsGo_get {PT : Type} (c : Collab PT) (fm : List (String × Nat)) :
    ∀ (l : List (Option PT × Option PT)) (s i : Nat)
      (hi : i < (updatedRequirementsGo c fm s l).length),
      ((updatedRequirementsGo c fm s l).get ⟨i, hi⟩).card_ord = s + i ∧
      List.Sorted (· < ·) ((updatedRequirementsGo c fm s l).get ⟨i, hi⟩).field_ords ∧
      ((updatedRequirementsGo c fm s l).get ⟨i, hi⟩).field_ords.Nodup := by
  intro l
  induction l with
  | nil =>
    intro s i hi
    rw [updatedRequirementsGo_length] at hi
    exact absurd hi (by simp)
  | cons p l ih =>
    intro s i hi
    obtain ⟨q, a⟩ := p
    cases i with
    | zero =>
      cases q with
      | none =>
        refine ⟨?_, ?_, ?_⟩ <;> simp [updatedRequirementsGo]
      | some tmpl =>
        rcases hreq : c.requirements tmpl fm with ords | ords | _ <;>
          refine ⟨?_, ?_, ?_⟩ <;>
          simp [updatedRequirementsGo, hreq, Finset.sort_sorted_lt, Finset.sort_nodup]
    | succ j =>
      have hj : j < (updatedRequirementsGo c fm (s + 1) l).length := by
        rw [updatedRequirementsGo_length]
        rw [updatedRequirementsGo_length] at hi
        simp at hi
        omega
      have hget : (updatedRequirementsGo c fm s ((q, a) :: l)).get ⟨j + 1, hi⟩ =
          (updatedRequirementsGo c fm (s + 1) l).get ⟨j, hj⟩ := by
        cases q with
        | none => rfl
        | some tmpl => rfl
      rw [hget]
      obtain ⟨h1, h2, h3⟩ := ih (s + 1) j hj
      exact ⟨by rw [h1]; omega, h2, h3⟩

/-- C1: after a successful `prepare_for_update` (and likewise
`prepare_for_adding`) the stored requirements array has exactly one
entry per template: its length equals the template count, the entry at
position `i` carries card ordinal `i`, and every entry's `field_ords`
list is strictly ascending (sorted with no duplicates). -/
theorem C1_requirements_invariant {PT : Type} (c : Collab PT) (nt : Notetype)
    (existing : Option Notetype) :
    (∀ nt', nt.prepare_for_update c existing = (nt', none) →
      nt'.config.reqs.length = nt'.templates.length ∧
      ∀ i (hi : i < nt'.config.reqs.length),
        (nt'.config.reqs.get ⟨i, hi⟩).card_ord = i ∧
        List.Sorted (· < ·) (nt'.config.reqs.get ⟨i, hi⟩).field_ords ∧
        (nt'.config.reqs.get ⟨i, hi⟩).field_ords.Nodup) ∧
    (∀ nt', nt.prepare_for_adding c = (nt', none) →
      nt'.config.reqs.length = nt'.templates.length ∧
      ∀ i (hi : i < nt'.config.reqs.length),
        (nt'.config.reqs.get ⟨i, hi⟩).card_ord = i ∧
        List.Sorted (· < ·) (nt'.config.reqs.get ⟨i, hi⟩).field_ords ∧
        (nt'.config.reqs.get ⟨i, hi⟩).field_ords.Nodup) := by
  have main : ∀ (nt0 : Notetype) (ex0 : Option Notetype) (nt' : Notetype),
      nt0.prepare_for_update c ex0 = (nt', none) →
      nt'.config.reqs.length = nt'.templates.length ∧
      ∀ i (hi : i < nt'.config.reqs.length),
        (nt'.config.reqs.get ⟨i, hi⟩).card_ord = i ∧
        List.Sorted (· < ·) (nt'.config.reqs.get ⟨i, hi⟩).field_ords ∧
        (nt'.config.reqs.get ⟨i, hi⟩).field_ords.Nodup := by
    intro nt0 ex0 nt' h
    obtain ⟨m, hfix, hidx, -, -, -, -, htlen, hreqs⟩ := prepare_ok_shape c nt0 ex0 nt' h
    have hplen : (m.parsed_templates c).length = m.templates.length := by
      rw [Notetype.parsed_templates, List.length_map]
    constructor
    · rw [hreqs, htlen, Notetype.updated_requirements, updatedRequirementsGo_length, hplen]
    · intro i hi
      have hi2 : i < (updatedRequirementsGo c (fieldMap m.fields) 0
          (m.parsed_templates c)).length := by
        rw [← Notetype.updated_requirements, ← hreqs]
        exact hi
      have hq : nt'.config.reqs.get? i =
          (updatedRequirementsGo c (fieldMap m.fields) 0 (m.parsed_templates c)).get? i := by
        rw [hreqs, Notetype.updated_requirements]
      rw [List.get?_eq_get hi, List.get?_eq_get hi2] at hq
      rw [Option.some.inj hq]
      obtain ⟨h1, h2, h3⟩ := updatedRequirementsGo_get c _ _ 0 i hi2
      exact ⟨by rw [h1]; omega, h2, h3⟩
  exact ⟨main nt existing, fun nt' h => main _ none nt' h⟩

/-- C1 witness: concrete evaluation of the pipeline on a two-field,
one-template notetype. -/
theorem C1_requirements_invariant_witness :
    (ntW.prepare_for_update collabW none).1.config.reqs.length =
      (ntW.prepare_for_update collabW none).1.templates.length :=
  ((C1_requirements_invariant collabW ntW none).1 (ntW.prepare_for_update collabW none).1
    (by decide)).1

theorem updateTemplatesGo_get {PT : Type} (c : Collab PT)
    (fields : List (String × Option String)) :
    ∀ (ts : List CardTemplate) (ps : List (Option PT × Option PT)) (i : Nat)
      (hti : i < ts.length) (hpi : i < ps.length)
      (hoi : i < (updateTemplatesGo c fields ts ps).length),
      (((ps.get ⟨i, hpi⟩).1 = none →
        ((updateTemplatesGo c fields ts ps).get ⟨i, hoi⟩).q_format =
          (ts.get ⟨i, hti⟩).q_format) ∧
       ∀ q, (ps.get ⟨i, hpi⟩).1 = some q →
        ((updateTemplatesGo c fields ts ps).get ⟨i, hoi⟩).q_format =
          c.templateToString (c.renameAndRemoveFields q fields)) ∧
      (((ps.get ⟨i, hpi⟩).2 = none →
        ((updateTemplatesGo c fields ts ps).get ⟨i, hoi⟩).a_format =
          (ts.get ⟨i, hti⟩).a_format) ∧
       ∀ a2, (ps.get ⟨i, hpi⟩).2 = some a2 →
        ((updateTemplatesGo c fields ts ps).get ⟨i, hoi⟩).a_format =
          c.templateToString (c.renameAndRemoveFields a2 fields)) ∧
      ((updateTemplatesGo c fields ts ps).get ⟨i, hoi⟩).name = (ts.get ⟨i, hti⟩).name := by
  intro ts
  induction ts with
  | nil => intro ps i hti; simp at hti
  | cons t ts ih =>
    intro ps i hti hpi hoi
    cases ps with
    | nil => simp at hpi
    | cons p ps =>
      obtain ⟨q, a⟩ := p
      cases i with
      | zero =>
        refine ⟨⟨?_, ?_⟩, ⟨?_, ?_⟩, ?_⟩
        · intro hq
          cases q with
          | none => cases a <;> rfl
          | some q2 => simp at hq
        · intro q2 hq2
          cases q with
          | none => simp at hq2
          | some q3 =>
            have hq3 : q3 = q2 := by simpa using hq2
            subst hq3
            cases a <;> rfl
        · intro ha
          cases a with
          | none => cases q <;> rfl
          | some a2 => simp at ha
        · intro a2 ha2
          cases a with
          | none => simp at ha2
          | some a3 =>
            have ha3 : a3 = a2 := by simpa using ha2
            subst ha3
            cases q <;> rfl
        · cases q <;> cases a <;> rfl
      | succ j =>
        have htj : j < ts.length := by simp at hti; omega
        have hpj : j < ps.length := by simp at hpi; omega
        have hoj : j < (updateTemplatesGo c fields ts ps).length := by
          rw [updateTemplatesGo_length]
          exact htj
        exact ih ps j htj hpj hoj

/-- C6: during rename/removal propagation a format string whose parse
failed is left byte-for-byte unchanged and only successfully parsed
sides are replaced by the re-serialized rewritten template; and within
`prepare_for_update`, when there is no prior schema or the
rename/removal mapping is empty, no template format string is rewritten
at all. -/
theorem C6_rename_frame {PT : Type} (c : Collab PT) :
    (∀ (nt : Notetype) (fields : List (String × Option String))
        (parsed : List (Option PT × Option PT)) (i : Nat)
        (hti : i < nt.templates.length) (hpi : i < parsed.length)
        (hoi : i < (nt.update_templates_for_renamed_and_removed_fields c fields
          parsed).templates.length),
      (((parsed.get ⟨i, hpi⟩).1 = none →
        ((nt.update_templates_for_renamed_and_removed_fields c fields
            parsed).templates.get ⟨i, hoi⟩).q_format =
          (nt.templates.get ⟨i, hti⟩).q_format) ∧
       ∀ q, (parsed.get ⟨i, hpi⟩).1 = some q →
        ((nt.update_templates_for_renamed_and_removed_fields c fields
            parsed).templates.get ⟨i, hoi⟩).q_format =
          c.templateToString (c.renameAndRemoveFields q fields)) ∧
      (((parsed.get ⟨i, hpi⟩).2 = none →
        ((nt.update_templates_for_renamed_and_removed_fields c fields
            parsed).templates.get ⟨i, hoi⟩).a_format =
          (nt.templates.get ⟨i, hti⟩).a_format) ∧
       ∀ a2, (parsed.get ⟨i, hpi⟩).2 = some a2 →
        ((nt.update_templates_for_renamed_and_removed_fields c fields
            parsed).templates.get ⟨i, hoi⟩).a_format =
          c.templateToString (c.renameAndRemoveFields a2 fields))) ∧
    (∀ (nt nt' ex : Notetype) (m : Notetype),
      nt.prepare_for_update c (some ex) = (nt', none) →
      nt.fixNamesStage c = (m, none) →
      m.renamed_and_removed_fields ex = [] →
      nt'.templates.map (fun t => t.q_format) = nt.templates.map (fun t => t.q_format) ∧
      nt'.templates.map (fun t => t.a_format) = nt.templates.map (fun t => t.a_format)) ∧
    (∀ nt nt' : Notetype,
      nt.prepare_for_update c none = (nt', none) →
      nt'.templates.map (fun t => t.q_format) = nt.templates.map (fun t => t.q_format) ∧
      nt'.templates.map (fun t => t.a_format) = nt.templates.map (fun t => t.a_format)) := by
  refine ⟨?_, ?_, ?_⟩
  · intro nt fields parsed i hti hpi hoi
    obtain ⟨hq, ha, -⟩ := updateTemplatesGo_get c fields nt.templates parsed i hti hpi hoi
    exact ⟨hq, ha⟩
  · intro nt nt' ex m h hfix hempty
    obtain ⟨m2, m3, hfix2, -, -, hsome, hnt⟩ := prepare_ok_inv c nt (some ex) nt' h
    have hmm : m2 = m := by
      rw [hfix2] at hfix
      exact ((Prod.mk.injEq _ _ _ _).mp hfix).1
    have hm3 : m3 = m2 := (hsome ex rfl).1 (by rw [hmm, hempty]; rfl)
    have htempl : nt'.templates = m2.templates := by rw [hnt, hm3]
    obtain ⟨-, -, -, -, -, -, hq, ha, -⟩ := fixNamesStage_ok c nt m2 hfix2
    rw [htempl]
    exact ⟨hq, ha⟩
  · intro nt nt' h
    obtain ⟨m2, m3, hfix2, -, hnone, -, hnt⟩ := prepare_ok_inv c nt none nt' h
    have hm3 : m3 = m2 := hnone rfl
    have htempl : nt'.templates = m2.templates := by rw [hnt, hm3]
    obtain ⟨-, -, -, -, -, -, hq, ha, -⟩ := fixNamesStage_ok c nt m2 hfix2
    rw [htempl]
    exact ⟨hq, ha⟩

/-- C6 witness: with a parse pair whose question side failed and whose
answer side parsed, only the answer format is replaced by the
re-serialized template; the question format stays byte-for-byte. -/
theorem C6_rename_frame_witness :
    ((ntW.update_templates_for_renamed_and_removed_fields collabW
        [("Front", none)] [(none, some ())]).templates.get ⟨0, by decide⟩).q_format =
      (ntW.templates.get ⟨0, by decide⟩).q_format ∧
    ((ntW.update_templates_for_renamed_and_removed_fields collabW
        [("Front", none)] [(none, some ())]).templates.get ⟨0, by decide⟩).a_format =
      collabW.templateToString (collabW.renameAndRemoveFields () [("Front", none)]) :=
  ⟨((C6_rename_frame collabW).1 ntW [("Front", none)] [(none, some ())] 0 (by decide)
      (by decide) (by decide)).1.1 rfl,
   ((C6_rename_frame collabW).1 ntW [("Front", none)] [(none, some ())] 0 (by decide)
      (by decide) (by decide)).2.2 () rfl⟩

theorem removedEntries_mem (remaining : List Nat) :
    ∀ (fs : List NoteField) (start : Nat) (k : String) (v : Option String),
      (k, v) ∈ removedEntries remaining start fs ↔
        v = none ∧ ∃ j, ∃ hj : j < fs.length,
          (fs.get ⟨j, hj⟩).name = k ∧ (start + j) ∉ remaining := by
  intro fs
  induction fs with
  | nil => intro start k v; simp [removedEntries]
  | cons f fs ih =>
    intro start k v
    rw [removedEntries]
    by_cases hmem : start ∈ remaining
    · rw [if_pos hmem, ih]
      constructor
      · rintro ⟨rfl, j, hj, hname, hnot⟩
        refine ⟨rfl, j + 1, by simp; omega, by simpa using hname, ?_⟩
        have : start + (j + 1) = start + 1 + j := by omega
        rw [this]
        exact hnot
      · rintro ⟨rfl, j, hj, hname, hnot⟩
        cases j with
        | zero =>
          exact absurd hmem (by simpa using hnot)
        | succ j2 =>
          refine ⟨rfl, j2, by simp at hj; omega, by simpa using hname, ?_⟩
          have : start + 1 + j2 = start + (j2 + 1) := by omega
          rw [this]
          exact hnot
    · rw [if_neg hmem]
      constructor
      · intro hin
        rcases List.mem_cons.mp hin with heq | hin2
        · injection heq with h1 h2
          subst h1
          subst h2
          exact ⟨rfl, 0, by simp, by simp, by simpa using hmem⟩
        · obtain ⟨rfl, j, hj, hname, hnot⟩ := (ih (start + 1) k v).mp hin2
          refine ⟨rfl, j + 1, by simp; omega, by simpa using hname, ?_⟩
          have heq2 : start + (j + 1) = start + 1 + j := by omega
          rw [heq2]
          exact hnot
      · rintro ⟨rfl, j, hj, hname, hnot⟩
        cases j with
        | zero =>
          have hk : f.name = k := by simpa using hname
          rw [← hk]
          exact List.mem_cons_self _ _
        | succ j2 =>
          apply List.mem_cons_of_mem
          refine (ih (start + 1) k none).mpr ⟨rfl, j2, by simp at hj; omega,
            by simpa using hname, ?_⟩
          have heq2 : start + 1 + j2 = start + (j2 + 1) := by omega
          rw [heq2]
          exact hnot

theorem removedEntries_keys_sublist (remaining : List Nat) :
    ∀ (fs : List NoteField) (start : Nat),
      List.Sublist ((removedEntries remaining start fs).map Prod.fst)
        (fs.map (fun f => f.name)) := by
  intro fs
  induction fs with
  | nil => intro start; simp [removedEntries]
  | cons f fs ih =>
    intro start
    rw [removedEntries]
    by_cases hmem : start ∈ remaining
    · rw [if_pos hmem]
      exact List.Sublist.cons _ (ih (start + 1))
    · rw [if_neg hmem]
      exact List.Sublist.cons₂ _ (ih (start + 1))

theorem renameEntry_some (current : Notetype) (field : NoteField) (k : String)
    (v : Option String) :
    renameEntry current field = some (k, v) ↔
      ∃ i, field.ord = some i ∧ ∃ hi : i < current.fields.length,
        (current.fields.get ⟨i, hi⟩).name = k ∧ k ≠ field.name ∧
        v = some field.name := by
  cases hord : field.ord with
  | none => simp [renameEntry, hord]
  | some i =>
    cases hget : current.fields.get? i with
    | none =>
      have hlen : current.fields.length ≤ i := List.get?_eq_none.mp hget
      simp only [renameEntry, hord, hget]
      constructor
      · intro hc
        cases hc
      · rintro ⟨i2, hi2, hlt, -⟩
        injection hi2 with hii
        subst hii
        omega
    | some ef =>
      obtain ⟨hlt, hef⟩ := List.get?_eq_some.mp hget
      simp only [renameEntry, hord, hget]
      by_cases hne : ef.name ≠ field.name
      · rw [if_pos hne]
        simp only [Option.some.injEq, Prod.mk.injEq]
        constructor
        · rintro ⟨rfl, rfl⟩
          exact ⟨i, rfl, hlt, by rw [hef], hne, rfl⟩
        · rintro ⟨i2, hi2, hlt2, hname2, hkne, rfl⟩
          subst hi2
          rw [hef] at hname2
          exact ⟨hname2, rfl⟩
      · rw [if_neg hne]
        push_neg at hne
        constructor
        · intro hc
          cases hc
        · rintro ⟨i2, hi2, hlt2, hname2, hkne, rfl⟩
          injection hi2 with hii
          subst hii
          rw [hef] at hname2
          exact absurd (hname2 ▸ hne) hkne

theorem fields_name_get_inj (current : Notetype)
    (hnames : (current.fields.map (fun f => f.name)).Nodup)
    (i j : Nat) (hi : i < current.fields.length) (hj : j < current.fields.length)
    (heq : (current.fields.get ⟨i, hi⟩).name = (current.fields.get ⟨j, hj⟩).name) :
    i = j := by
  have hi2 : i < (current.fields.map (fun f => f.name)).length := by
    rw [List.length_map]
    exact hi
  have hj2 : j < (current.fields.map (fun f => f.name)).length := by
    rw [List.length_map]
    exact hj
  have hmap : (current.fields.map (fun f => f.name)).get ⟨i, hi2⟩ =
      (current.fields.map (fun f => f.name)).get ⟨j, hj2⟩ := by
    simp only [List.get_eq_getElem, List.getElem_map]
    exact heq
  have hfin := (List.Nodup.get_inj_iff hnames).mp hmap
  exact congrArg Fin.val hfin

theorem renames_keys_nodup (current : Notetype)
    (hnames : (current.fields.map (fun f => f.name)).Nodup) :
    ∀ fs : List NoteField, (fs.filterMap (fun f => f.ord)).Nodup →
      ((fs.filterMap (renameEntry current)).map Prod.fst).Nodup ∧
      ∀ k ∈ (fs.filterMap (renameEntry current)).map Prod.fst,
        ∃ i ∈ fs.filterMap (fun f => f.ord), ∃ hi : i < current.fields.length,
          (current.fields.get ⟨i, hi⟩).name = k := by
  intro fs
  induction fs with
  | nil => intro hords; simp
  | cons f fs ih =>
    intro hords
    cases hford : f.ord with
    | none =>
      have hre : renameEntry current f = none := by simp [renameEntry, hford]
      rw [List.filterMap_cons_none hre]
      rw [List.filterMap_cons_none hford] at hords
      obtain ⟨h1, h2⟩ := ih hords
      refine ⟨h1, ?_⟩
      intro k hk
      obtain ⟨i, hi, hlt, hname⟩ := h2 k hk
      refine ⟨i, ?_, hlt, hname⟩
      rw [List.filterMap_cons_none hford]
      exact hi
    | some i =>
      rw [List.filterMap_cons_some hford] at hords
      have hords2 := (List.nodup_cons.mp hords).2
      have hinot : i ∉ fs.filterMap (fun f => f.ord) := (List.nodup_cons.mp hords).1
      obtain ⟨h1, h2⟩ := ih hords2
      cases hre : renameEntry current f with
      | none =>
        rw [List.filterMap_cons_none hre]
        refine ⟨h1, ?_⟩
        intro k hk
        obtain ⟨i2, hi2, hlt, hname⟩ := h2 k hk
        refine ⟨i2, ?_, hlt, hname⟩
        rw [List.filterMap_cons_some hford]
        exact List.mem_cons_of_mem _ hi2
      | some kv =>
        obtain ⟨k0, v0⟩ := kv
        obtain ⟨i2, hi2, hlt, hname0, -, -⟩ := (renameEntry_some current f k0 v0).mp hre
        have hii : i2 = i := by
          rw [hford] at hi2
          injection hi2 with hii2
          exact hii2.symm
        subst hii
        rw [List.filterMap_cons_some hre]
        constructor
        · rw [List.map_cons, List.nodup_cons]
          refine ⟨?_, h1⟩
          intro hk0
          obtain ⟨i3, hi3, hlt3, hname3⟩ := h2 k0 hk0
          have hiii : i3 = i2 := fields_name_get_inj current hnames i3 i2 hlt3 hlt
            (by rw [hname3, hname0])
          subst hiii
          exact hinot hi3
        · intro k hk
          rw [List.map_cons, List.mem_cons] at hk
          rcases hk with rfl | hk
          · refine ⟨i2, ?_, hlt, hname0⟩
            rw [List.filterMap_cons_some hford]
            exact List.mem_cons_self _ _
          · obtain ⟨i3, hi3, hlt3, hname3⟩ := h2 k hk
            refine ⟨i3, ?_, hlt3, hname3⟩
            rw [List.filterMap_cons_some hford]
            exact List.mem_cons_of_mem _ hi3

theorem renamed_map_split (self current : Notetype) :
    self.renamed_and_removed_fields current =
      self.fields.filterMap (renameEntry current) ++
        removedEntries (self.fields.filterMap (fun field => field.ord)) 0
          current.fields := rfl

theorem renamed_keys_nodup (self current : Notetype)
    (hnames : (current.fields.map (fun f => f.name)).Nodup)
    (hords : (self.fields.filterMap (fun f => f.ord)).Nodup) :
    ((self.renamed_and_removed_fields current).map Prod.fst).Nodup := by
  rw [renamed_map_split, List.map_append]
  obtain ⟨h1, h2⟩ := renames_keys_nodup current hnames self.fields hords
  refine List.Nodup.append h1 ?_ ?_
  · exact List.Nodup.sublist (removedEntries_keys_sublist _ current.fields 0) hnames
  · intro k hk1 hk2
    obtain ⟨i, hi, hlt, hname⟩ := h2 k hk1
    rw [List.mem_map] at hk2
    obtain ⟨⟨k2, v2⟩, hmem2, hk2eq⟩ := hk2
    obtain ⟨hv2, j, hj, hname2, hnotin⟩ :=
      (removedEntries_mem _ current.fields 0 k2 v2).mp hmem2
    have hjk : (current.fields.get ⟨j, hj⟩).name = k := by
      rw [hname2]
      exact hk2eq
    have hij : i = j := fields_name_get_inj current hnames i j hlt hj
      (by rw [hname, hjk])
    subst hij
    rw [Nat.zero_add] at hnotin
    exact hnotin hi

theorem lookup_eq_some_iff_of_keys_nodup :
    ∀ (l : List (String × Option String)), ((l.map Prod.fst).Nodup) →
      ∀ (k : String) (v : Option String), l.lookup k = some v ↔ (k, v) ∈ l := by
  intro l
  induction l with
  | nil => intro _ k v; simp [List.lookup]
  | cons p l ih =>
    intro hnd k v
    obtain ⟨k1, v1⟩ := p
    rw [List.map_cons, List.nodup_cons] at hnd
    rw [List.lookup_cons]
    by_cases hk : k = k1
    · subst hk
      simp only [beq_self_eq_true]
      constructor
      · intro hv
        injection hv with hv
        subst hv
        exact List.mem_cons_self _ _
      · intro hmem
        rcases List.mem_cons.mp hmem with heq | hmem2
        · injection heq with h1 h2
          subst h2
          rfl
        · exact absurd (List.mem_map.mpr ⟨(k, v), hmem2, rfl⟩) hnd.1
    · have hbeq : (k == k1) = false := by
        simp [hk]
      rw [hbeq]
      rw [ih hnd.2 k v]
      constructor
      · exact List.mem_cons_of_mem _
      · intro hmem
        rcases List.mem_cons.mp hmem with heq | hmem2
        · injection heq with h1 h2
          exact absurd h1 hk
        · exact hmem2

theorem mapLookup_eq_some_iff (entries : List (String × Option String))
    (hnd : ((entries.map Prod.fst)).Nodup) (k : String) (v : Option String) :
    mapLookup entries k = some v ↔ (k, v) ∈ entries := by
  rw [mapLookup, lookup_eq_some_iff_of_keys_nodup entries.reverse
    (by rw [List.map_reverse]; exact List.nodup_reverse.mpr hnd), List.mem_reverse]

/-- C5: given the previously persisted schema (whose field names are
pairwise distinct) and a new schema whose retained prior ordinals are
pairwise distinct, the rename/removal map contains
`old name → Some(new name)` exactly for each new field whose prior
ordinal indexes an old field with a different name, `old name → None`
exactly for each old field whose index is not the prior ordinal of any
new field, and nothing else — in particular new fields without a prior
ordinal contribute no entries. -/
theorem C5_renamed_and_removed_fields (self current : Notetype)
    (hnames : (current.fields.map (fun f => f.name)).Nodup)
    (hords : (self.fields.filterMap (fun f => f.ord)).Nodup) :
    (∀ field ∈ self.fields, ∀ i, field.ord = some i →
      ∀ hi : i < current.fields.length,
        (current.fields.get ⟨i, hi⟩).name ≠ field.name →
        mapLookup (self.renamed_and_removed_fields current)
          ((current.fields.get ⟨i, hi⟩).name) = some (some field.name)) ∧
    (∀ i (hi : i < current.fields.length),
      (∀ field ∈ self.fields, field.ord ≠ some i) →
      mapLookup (self.renamed_and_removed_fields current)
        ((current.fields.get ⟨i, hi⟩).name) = some none) ∧
    (∀ (k : String) (v : Option String),
      mapLookup (self.renamed_and_removed_fields current) k = some v →
      (∃ field ∈ self.fields, ∃ i, field.ord = some i ∧
        ∃ hi : i < current.fields.length,
          (current.fields.get ⟨i, hi⟩).name = k ∧ k ≠ field.name ∧
          v = some field.name) ∨
      (v = none ∧ ∃ j, ∃ hj : j < current.fields.length,
        (current.fields.get ⟨j, hj⟩).name = k ∧
        ∀ field ∈ self.fields, field.ord ≠ some j)) := by
  have hnd := renamed_keys_nodup self current hnames hords
  refine ⟨?_, ?_, ?_⟩
  · intro field hfield i hford hi hdiff
    rw [mapLookup_eq_some_iff _ hnd, renamed_map_split, List.mem_append]
    left
    rw [List.mem_filterMap]
    refine ⟨field, hfield, ?_⟩
    rw [renameEntry_some]
    exact ⟨i, hford, hi, rfl, hdiff, rfl⟩
  · intro i hi hno
    rw [mapLookup_eq_some_iff _ hnd, renamed_map_split, List.mem_append]
    right
    rw [removedEntries_mem]
    refine ⟨rfl, i, hi, rfl, ?_⟩
    rw [Nat.zero_add, List.mem_filterMap]
    rintro ⟨field, hfield, hford⟩
    exact hno field hfield hford
  · intro k v h
    rw [mapLookup_eq_some_iff _ hnd, renamed_map_split, List.mem_append] at h
    rcases h with h | h
    · left
      rw [List.mem_filterMap] at h
      obtain ⟨field, hfield, hre⟩ := h
      rw [renameEntry_some] at hre
      obtain ⟨i, hford, hi, hname, hkne, hv⟩ := hre
      exact ⟨field, hfield, i, hford, hi, hname, hkne, hv⟩
    · right
      rw [removedEntries_mem] at h
      obtain ⟨hv, j, hj, hname, hnotin⟩ := h
      rw [Nat.zero_add, List.mem_filterMap] at hnotin
      refine ⟨hv, j, hj, hname, ?_⟩
      intro field hfield hford
      exact hnotin ⟨field, hfield, hford⟩

/-- C5 witness: old fields `[Front, Back]`; new fields
`[Question (prior ordinal 0), Extra (no prior ordinal)]`: the map sends
`Front` to `Some Question`, `Back` to `None`. -/
theorem C5_renamed_and_removed_fields_witness :
    mapLookup (ntRenameW.renamed_and_removed_fields ntOldW) "Front" =
      some (some "Question") ∧
    mapLookup (ntRenameW.renamed_and_removed_fields ntOldW) "Back" = some none :=
  ⟨(C5_renamed_and_removed_fields ntRenameW ntOldW (by decide) (by decide)).1
      { ord := some 0, name := "Question" } (by decide) 0 rfl (by decide) (by decide),
   (C5_renamed_and_removed_fields ntRenameW ntOldW (by decide) (by decide)).2.1
      1 (by decide) (by decide)⟩

theorem get_notetype_frame {Ext : Type} (col : Collection Ext) (ntid : Int) :
    (col.get_notetype ntid).1.storage = col.storage ∧
    (col.get_notetype ntid).1.ext = col.ext ∧
    (col.get_notetype ntid).1.usn = col.usn ∧
    (col.get_notetype ntid).1.norm = col.norm := by
  cases h1 : col.cache.lookup ntid with
  | some nt => simp [Collection.get_notetype, h1]
  | none =>
    cases h2 : col.storage.lookup ntid with
    | some nt => simp [Collection.get_notetype, h1, h2]
    | none => simp [Collection.get_notetype, h1, h2]

theorem prepare_mtime {PT : Type} (c : Collab PT) (nt : Notetype)
    (existing : Option Notetype) (nt' : Notetype)
    (h : nt.prepare_for_update c existing = (nt', none)) :
    nt'.mtime_secs = nt.mtime_secs := by
  obtain ⟨m, hfix, -, -, hm, -⟩ := prepare_ok_shape c nt existing nt' h
  obtain ⟨-, -, -, -, -, -, -, -, -, hmt, -, -⟩ := fixNamesStage_ok c nt m hfix
  rw [hm, hmt]

/-- C8: `update_notetype` fails with `InvalidInput` ("attempt to save
stale notetype") when the loaded persisted version's modification time
is strictly newer than the caller-held notetype's, and in that case no
notetype config, field or template data is written to storage and the
dependent note/card records are untouched. -/
theorem C8_stale_update_rejected {PT Ext : Type} (c : Collab PT)
    (updateNotesHook : Ext → Notetype → Nat → Nat → Bool → Except AnkiError Ext)
    (updateCardsHook : Ext → Notetype → Nat → Except AnkiError Ext)
    (col : Collection Ext) (nt ex : Notetype) (preserve_usn : Bool) (now : Int)
    (hex : (col.get_notetype nt.id).2 = some ex)
    (hprep : (Notetype.prepare_for_update c nt (some ex)).2 = none)
    (hstale : nt.mtime_secs < ex.mtime_secs) :
    (Collection.update_notetype c updateNotesHook updateCardsHook col nt preserve_usn
      now).2.2 = some (AnkiError.invalidInput "attempt to save stale notetype") ∧
    (Collection.update_notetype c updateNotesHook updateCardsHook col nt preserve_usn
      now).1.storage = col.storage ∧
    (Collection.update_notetype c updateNotesHook updateCardsHook col nt preserve_usn
      now).1.ext = col.ext := by
  have hpair : nt.prepare_for_update c (some ex) =
      ((nt.prepare_for_update c (some ex)).1, none) := by
    rw [← hprep]
  have hmt : (nt.prepare_for_update c (some ex)).1.mtime_secs = nt.mtime_secs :=
    prepare_mtime c nt (some ex) _ hpair
  have hstale2 : ex.mtime_secs > (nt.prepare_for_update c (some ex)).1.mtime_secs := by
    rw [hmt]
    omega
  have hinner : updateNotetypeInner updateNotesHook updateCardsHook
      (col.get_notetype nt.id).1 (nt.prepare_for_update c (some ex)).1 (some ex)
      preserve_usn now =
      Except.error (AnkiError.invalidInput "attempt to save stale notetype") := by
    simp only [updateNotetypeInner, if_pos hstale2]
  have hupdate : Collection.update_notetype c updateNotesHook updateCardsHook col nt
      preserve_usn now =
      ((col.get_notetype nt.id).1, (nt.prepare_for_update c (some ex)).1,
        some (AnkiError.invalidInput "attempt to save stale notetype")) := by
    simp only [Collection.update_notetype, hex, hprep, hinner]
  rw [hupdate]
  obtain ⟨hs, he, -, -⟩ := get_notetype_frame col nt.id
  exact ⟨rfl, hs, he⟩

/-- C8 witness: the persisted `ntOldW` (mtime 5) is newer than the
caller's `ntW` (mtime 3); the update is rejected as stale and storage is
untouched. -/
theorem C8_stale_update_rejected_witness :
    (Collection.update_notetype collabW notesHookW cardsHookW colW ntW false 99).2.2 =
      some (AnkiError.invalidInput "attempt to save stale notetype") ∧
    (Collection.update_notetype collabW notesHookW cardsHookW colW ntW false 99).1.storage =
      colW.storage :=
  ⟨(C8_stale_update_rejected collabW notesHookW cardsHookW colW ntW ntOldW false 99
      (by decide) (by decide) (by decide)).1,
   (C8_stale_update_rejected collabW notesHookW cardsHookW colW ntW ntOldW false 99
      (by decide) (by decide) (by decide)).2.1⟩
